import Mathlib

/-!
Verification of the QRCodeMaker batch code-generation pipeline.

Shallow embedding of the JavaScript sources (`src/js/utils.js`,
`src/js/app_v2.js`, `src/js/barcodeGenerator.js`, `src/js/qrGenerator.js`,
`src/worker.js` and the store in `src/unnamed/part_000`, i.e. `store.js`).
JavaScript strings are modelled as `List Char`; objects are structures;
the opaque drawing libraries (qrcode, JsBarcode) are oracle parameters.
-/

namespace QRM

/-- JavaScript strings, modelled as lists of unicode characters. -/
abbrev Str := List Char

/-- Chars of a Lean string literal, used to write concrete JS strings. -/
def str (s : String) : Str := s.data

/-- Whitespace recognized by JavaScript `String.prototype.trim`
(WhiteSpace and LineTerminator code points; the exotic unicode spaces
do not occur in any claim). -/
def isJsSpace (c : Char) : Bool :=
  c = ' ' ∨ c = '\t' ∨ c = '\n' ∨ c = '\r' ∨ c = '\x0b' ∨ c = '\x0c' ∨
  c = ' ' ∨ c = '﻿'

/-- JS `s.trim()`: strip leading and trailing whitespace. -/
def jsTrim (s : Str) : Str :=
  ((s.dropWhile isJsSpace).reverse.dropWhile isJsSpace).reverse

/-- One step of JS `String.prototype.split` with a non-empty string
separator: cut at each non-overlapping occurrence, left to right.
`cur` is the piece accumulated so far; the structural `fuel` is at least
the length of the remaining text, so the first equation never fires on
the intended calls. -/
def jsSplitAux (sep : List Char) : Nat → List Char → List Char → List (List Char)
  | 0, s, cur => [cur ++ s]
  | _ + 1, [], cur => [cur]
  | fuel + 1, c :: rest, cur =>
    if sep ≠ [] ∧ sep.isPrefixOf (c :: rest) then
      cur :: jsSplitAux sep fuel (List.drop (sep.length - 1) rest) []
    else
      jsSplitAux sep fuel rest (cur ++ [c])

/-- JS `content.split(delimiter)` for a non-empty string delimiter. -/
def jsSplit (sep s : List Char) : List (List Char) := jsSplitAux sep s.length s []

/-- `utils.js` delimiter selection values (`types.js` DelimiterType). -/
inductive DelimiterType where
  | newline | comma | semicolon | tab | custom
deriving DecidableEq, Repr

/-- `utils.js` `getDelimiter(delimiterType, customDelimiter)`:
`custom` resolves to the custom string, or `"\n"` when it is empty;
the other selections resolve through `CONSTANTS.DELIMITERS`. -/
def getDelimiter (delimiterType : DelimiterType) (customDelimiter : Str) : Str :=
  match delimiterType with
  | .custom => if customDelimiter = [] then ['\n'] else customDelimiter
  | .newline => ['\n']
  | .comma => [',']
  | .semicolon => [';']
  | .tab => ['\t']

/-- `utils.js` `parseContent(content, delimiter)`: split on the literal
delimiter, trim each piece, drop empty pieces. -/
def parseContent (content : Str) (delimiter : Str) : List Str :=
  ((jsSplit delimiter content).map jsTrim).filter (fun item => item ≠ [])

/-- `utils.js` `isAscii`: regex `^[\x20-\x7E]*$`. -/
def isAscii (s : Str) : Bool :=
  s.all (fun c => 0x20 ≤ c.toNat ∧ c.toNat ≤ 0x7E)

/-- `utils.js` `isNumeric`: regex `^\d+$` (one or more ASCII digits). -/
def isNumeric (s : Str) : Bool :=
  s ≠ [] ∧ s.all (fun c => c.isDigit)

/-- Characters of the regex class `[A-Z0-9\-. $/+%]`. -/
def isCode39Char (c : Char) : Bool :=
  ('A' ≤ c ∧ c ≤ 'Z') ∨ c.isDigit ∨
  c = '-' ∨ c = '.' ∨ c = ' ' ∨ c = '$' ∨ c = '/' ∨ c = '+' ∨ c = '%'

/-- `utils.js` `isCode39Compatible`: regex `^[A-Z0-9\-. $/+%]*$`. -/
def isCode39Compatible (s : Str) : Bool :=
  s.all isCode39Char

/-- JS `toUpperCase`, modelled character-wise (ASCII case mapping;
`Char.toUpper` maps exactly `a`..`z`). -/
def jsToUpperCase (s : Str) : Str := s.map Char.toUpper

/-- Result shape of `validateBarcodeFormat`: `{valid, error?}`; a missing
`error` field is modelled as the empty string. -/
structure VRes where
  valid : Bool
  error : Str
deriving DecidableEq, Repr

/-- `utils.js` `validateBarcodeFormat(text, format)`. -/
def validateBarcodeFormat (text : Str) (format : Str) : VRes :=
  if format = str "CODE128" then
    if ¬ isAscii text then ⟨false, str "非ASCII文字を含む（CODE128はASCII文字のみ対応）"⟩
    else ⟨true, []⟩
  else if format = str "EAN13" ∨ format = str "JAN" then
    if ¬ isNumeric text then ⟨false, str "数字のみ入力してください"⟩
    else if text.length ≠ 12 ∧ text.length ≠ 13 then
      ⟨false, str "12桁または13桁の数字を入力してください"⟩
    else ⟨true, []⟩
  else if format = str "CODE39" then
    if ¬ isCode39Compatible (jsToUpperCase text) then
      ⟨false, str "CODE39は英大文字、数字、記号(-. $/+%)のみ対応"⟩
    else ⟨true, []⟩
  else if format = str "ITF" then
    if ¬ isNumeric text then ⟨false, str "数字のみ入力してください"⟩
    else if text.length % 2 ≠ 0 then ⟨false, str "ITFは偶数桁のみ対応"⟩
    else ⟨true, []⟩
  else ⟨false, str "不明なバーコード形式"⟩

/-- `utils.js` `getQRSize(moduleCount)`. -/
def getQRSize (moduleCount : Nat) : Str :=
  if moduleCount ≤ 33 then str "small" else str "medium"

/-- `utils.js` `getBarcodeSize(textLength)`. -/
def getBarcodeSize (textLength : Nat) : Str :=
  if textLength ≤ 16 then str "small" else str "medium"

/-- Does `toCSV` quote this field? (`field.includes('"') || includes(',') ||
includes('\n')` in `utils.js`). -/
def csvNeedsQuote (f : Str) : Bool :=
  f.any (fun c => c = '"' ∨ c = ',' ∨ c = '\n')

/-- `stringField.replace(/"/g, '""')`: double every double quote. -/
def csvEscape : Str → Str
  | [] => []
  | c :: rest => if c = '"' then '"' :: '"' :: csvEscape rest else c :: csvEscape rest

/-- One CSV field as `utils.js` `toCSV` renders it (`String(field || '')`
is the identity on our string fields). -/
def encodeField (f : Str) : Str :=
  if csvNeedsQuote f then '"' :: (csvEscape f ++ ['"']) else f

/-- `row.map(...).join(',')`. -/
def encodeRow : List Str → Str
  | [] => []
  | [f] => encodeField f
  | f :: rest => encodeField f ++ ',' :: encodeRow rest

/-- `utils.js` `toCSV(data)`: encode each row, join rows with `'\n'`. -/
def toCSV : List (List Str) → Str
  | [] => []
  | [r] => encodeRow r
  | r :: rest => encodeRow r ++ '\n' :: toCSV rest

/-- The character loop of `utils.js` `parseCSV`, with its mutable
`current` field, `row` and `result` accumulators and `inQuote` flag made
explicit.  The two-character lookaheads (`""` inside quotes, `\r\n`
outside) are the `nextChar` checks of the source. -/
def parseCSVAux : List Char → Bool → Str → List Str → List (List Str) → List (List Str)
  | [], _, cur, row, acc =>
    if cur = [] ∧ row = [] then acc else acc ++ [row ++ [cur]]
  | c :: cs, true, cur, row, acc =>
    if c = '"' then
      match cs, cur, row, acc with
      | '"' :: rest2, cur, row, acc => parseCSVAux rest2 true (cur ++ ['"']) row acc
      | rest, cur, row, acc => parseCSVAux rest false cur row acc
    else parseCSVAux cs true (cur ++ [c]) row acc
  | c :: cs, false, cur, row, acc =>
    if c = '"' then parseCSVAux cs true cur row acc
    else if c = ',' then parseCSVAux cs false [] (row ++ [cur]) acc
    else if c = '\n' then parseCSVAux cs false [] [] (acc ++ [row ++ [cur]])
    else if c = '\r' then
      match cs, row ++ [cur], acc with
      | '\n' :: rest2, r, acc => parseCSVAux rest2 false [] [] (acc ++ [r])
      | rest, r, acc => parseCSVAux rest false [] [] (acc ++ [r])
    else parseCSVAux cs false (cur ++ [c]) row acc

/-- `utils.js` `parseCSV(text)`. -/
def parseCSV (text : Str) : List (List Str) := parseCSVAux text false [] [] []

/-! ### Round-trip lemmas for `parseCSV ∘ toCSV` -/

/-- The continuation after a quoted field never starts with `"`. -/
def headIsNotQuote (s : List Char) : Prop := s.head? ≠ some '"'

theorem parseCSVAux_nil (q : Bool) (cur row acc) :
    parseCSVAux [] q cur row acc =
      if cur = [] ∧ row = [] then acc else acc ++ [row ++ [cur]] := by
  cases q <;> rfl

theorem parseCSVAux_plain (c : Char) (hq : c ≠ '"') (hc : c ≠ ',')
    (hn : c ≠ '\n') (hr : c ≠ '\r') (cs cur row acc) :
    parseCSVAux (c :: cs) false cur row acc =
      parseCSVAux cs false (cur ++ [c]) row acc := by
  conv_lhs => rw [parseCSVAux.eq_def]
  simp [hq, hc, hn, hr]

theorem parseCSVAux_openQuote (cs : List Char) (cur row acc) :
    parseCSVAux ('"' :: cs) false cur row acc = parseCSVAux cs true cur row acc := by
  conv_lhs => rw [parseCSVAux.eq_def]
  simp

theorem parseCSVAux_comma (cs : List Char) (cur row acc) :
    parseCSVAux (',' :: cs) false cur row acc =
      parseCSVAux cs false [] (row ++ [cur]) acc := by
  conv_lhs => rw [parseCSVAux.eq_def]
  simp

theorem parseCSVAux_newline (cs : List Char) (cur row acc) :
    parseCSVAux ('\n' :: cs) false cur row acc =
      parseCSVAux cs false [] [] (acc ++ [row ++ [cur]]) := by
  conv_lhs => rw [parseCSVAux.eq_def]
  simp

theorem parseCSVAux_inQuote_char (c : Char) (hq : c ≠ '"') (cs cur row acc) :
    parseCSVAux (c :: cs) true cur row acc =
      parseCSVAux cs true (cur ++ [c]) row acc := by
  conv_lhs => rw [parseCSVAux.eq_def]
  simp [hq]

theorem parseCSVAux_inQuote_escaped (cs : List Char) (cur row acc) :
    parseCSVAux ('"' :: '"' :: cs) true cur row acc =
      parseCSVAux cs true (cur ++ ['"']) row acc := by
  conv_lhs => rw [parseCSVAux.eq_def]
  simp

theorem parseCSVAux_closeQuote (cs : List Char) (h : headIsNotQuote cs) (cur row acc) :
    parseCSVAux ('"' :: cs) true cur row acc = parseCSVAux cs false cur row acc := by
  match cs with
  | [] =>
    conv_lhs => rw [parseCSVAux.eq_def]
    simp
  | c :: rest =>
    have hc : c ≠ '"' := by
      intro hcc
      exact h (by simp [hcc])
    conv_lhs => rw [parseCSVAux.eq_def]
    simp
    split
    · rename_i heq
      injection heq with h1 _
      exact absurd h1 hc
    · rfl

/-- Consuming an unquoted chunk of plain characters appends it to `current`. -/
theorem parse_plain_chunk (f : Str)
    (hf : ∀ c ∈ f, c ≠ '"' ∧ c ≠ ',' ∧ c ≠ '\n' ∧ c ≠ '\r') :
    ∀ s cur row acc, parseCSVAux (f ++ s) false cur row acc =
      parseCSVAux s false (cur ++ f) row acc := by
  induction f with
  | nil => intro s cur row acc; simp
  | cons c f ih =>
    intro s cur row acc
    obtain ⟨h1, h2, h3, h4⟩ := hf c (by simp)
    rw [List.cons_append, parseCSVAux_plain c h1 h2 h3 h4,
      ih (fun c hc => hf c (by simp [hc])), List.append_assoc]
    rfl

theorem csvEscape_quote (f : Str) : csvEscape ('"' :: f) = '"' :: '"' :: csvEscape f := by
  simp [csvEscape]

theorem csvEscape_other (c : Char) (h : c ≠ '"') (f : Str) :
    csvEscape (c :: f) = c :: csvEscape f := by
  simp [csvEscape, h]

/-- Consuming an escaped chunk inside quotes, then the closing quote. -/
theorem parse_quoted_chunk (f : Str) :
    ∀ s cur row acc, headIsNotQuote s →
      parseCSVAux (csvEscape f ++ '"' :: s) true cur row acc =
        parseCSVAux s false (cur ++ f) row acc := by
  induction f with
  | nil =>
    intro s cur row acc hs
    rw [csvEscape, List.nil_append, parseCSVAux_closeQuote s hs, List.append_nil]
  | cons c f ih =>
    intro s cur row acc hs
    by_cases hc : c = '"'
    · subst hc
      rw [csvEscape_quote, List.cons_append, List.cons_append,
        parseCSVAux_inQuote_escaped, ih s (cur ++ ['"']) row acc hs, List.append_assoc]
      rfl
    · rw [csvEscape_other c hc, List.cons_append,
        parseCSVAux_inQuote_char c hc, ih s (cur ++ [c]) row acc hs, List.append_assoc]
      rfl

/-- Consuming one encoded field appends the decoded field to `current`. -/
theorem parse_field (f : Str) (hf : '\r' ∉ f) (s : List Char) (hs : headIsNotQuote s)
    (cur row acc) :
    parseCSVAux (encodeField f ++ s) false cur row acc =
      parseCSVAux s false (cur ++ f) row acc := by
  unfold encodeField
  by_cases hq : csvNeedsQuote f = true
  · rw [if_pos hq, List.cons_append, parseCSVAux_openQuote, List.append_assoc,
      List.singleton_append, parse_quoted_chunk f s cur row acc hs]
  · rw [if_neg hq]
    refine parse_plain_chunk f ?_ s cur row acc
    intro c hc
    have : ¬ (c = '"' ∨ c = ',' ∨ c = '\n') := by
      intro hor
      exact hq (by simp [csvNeedsQuote, List.any_eq_true]; exact ⟨c, hc, by simpa using hor⟩)
    push_neg at this
    exact ⟨this.1, this.2.1, this.2.2, fun h => hf (h ▸ hc)⟩

/-- Consuming one encoded row: the last field lands in `current`, the
earlier fields are flushed onto `row`. -/
theorem parse_row (fs : List Str) (f : Str) :
    ∀ s row acc, (∀ g ∈ f :: fs, '\r' ∉ g) → headIsNotQuote s →
      parseCSVAux (encodeRow (f :: fs) ++ s) false [] row acc =
        parseCSVAux s false ((f :: fs).getLast (by simp))
          (row ++ (f :: fs).dropLast) acc := by
  induction fs generalizing f with
  | nil =>
    intro s row acc hclean hs
    show parseCSVAux (encodeField f ++ s) false [] row acc = _
    rw [parse_field f (hclean f (by simp)) s hs]
    simp
  | cons f2 fs ih =>
    intro s row acc hclean hs
    have hstep : encodeRow (f :: f2 :: fs) ++ s =
        encodeField f ++ (',' :: (encodeRow (f2 :: fs) ++ s)) := by
      show (encodeField f ++ ',' :: encodeRow (f2 :: fs)) ++ s = _
      simp
    rw [hstep, parse_field f (hclean f (by simp)) _ (by simp [headIsNotQuote]),
      parseCSVAux_comma, ih f2 s (row ++ [[] ++ f]) acc
        (fun g hg => hclean g (by simp at hg ⊢; tauto)) hs]
    simp [List.getLast_cons]

/-- Consuming the entire serialized table. -/
theorem parse_rows (rows : List (List Str)) :
    ∀ acc, (∀ r ∈ rows, r ≠ []) → (∀ r ∈ rows, ∀ g ∈ r, '\r' ∉ g) →
      rows.getLast? ≠ some [[]] →
      parseCSVAux (toCSV rows) false [] [] acc = acc ++ rows := by
  induction rows with
  | nil => intro acc _ _ _; simp [toCSV, parseCSVAux_nil]
  | cons r rest ih =>
    intro acc hne hclean hlast
    obtain ⟨f, fs, rfl⟩ : ∃ f fs, r = f :: fs := by
      cases r with
      | nil => exact absurd rfl (hne [] (by simp))
      | cons f fs => exact ⟨f, fs, rfl⟩
    cases rest with
    | nil =>
      have hrow := parse_row fs f [] [] acc (hclean _ (by simp)) (by simp [headIsNotQuote])
      rw [List.append_nil] at hrow
      rw [show toCSV [f :: fs] = encodeRow (f :: fs) from rfl, hrow, parseCSVAux_nil]
      have hr : ¬((f :: fs).getLast (by simp) = [] ∧ [] ++ (f :: fs).dropLast = []) := by
        rintro ⟨h1, h2⟩
        cases fs with
        | nil => exact hlast (by simpa [List.getLast?] using congrArg (fun x => some [x]) h1)
        | cons f2 fs => simp at h2
      rw [if_neg hr]
      simp [List.dropLast_append_getLast]
    | cons r2 rest2 =>
      have htc : toCSV ((f :: fs) :: r2 :: rest2) =
          encodeRow (f :: fs) ++ '\n' :: toCSV (r2 :: rest2) := rfl
      rw [htc, parse_row fs f _ [] acc (hclean _ (by simp)) (by simp [headIsNotQuote]),
        parseCSVAux_newline, List.nil_append,
        ih (acc ++ [(f :: fs).dropLast ++ [(f :: fs).getLast (by simp)]])
          (fun r hr => hne r (by simp [hr])) (fun r hr => hclean r (by simp [hr]))
          (by rwa [List.getLast?_cons_cons] at hlast)]
      simp [List.dropLast_append_getLast]

/-! ### Data model (`types.js`, `utils.js` `createNewBlock`/`createDefaultSettings`) -/

/-- `CodeType`: `'qr' | 'barcode'`. -/
inductive CodeType where
  | qr | barcode
deriving DecidableEq, Repr

/-- The string the block's `codeType` field holds. -/
def codeTypeStr : CodeType → Str
  | .qr => str "qr"
  | .barcode => str "barcode"

/-- A `Block` (`types.js`).  `id` is an opaque unique identifier; the
random UUIDs of `crypto.randomUUID` are modelled by naturals drawn from
a fresh counter.  `qrErrorCorrection`, `barcodeFormat` and
`sizeOverride` stay strings, as in the source. -/
structure Block where
  id : Nat
  subtitle : Str
  codeType : CodeType
  qrErrorCorrection : Str
  barcodeFormat : Str
  sizeOverride : Str
  content : Str
deriving DecidableEq, Repr

/-- `GlobalSettings` (`types.js` DEFAULTS.globalSettings shape). -/
structure Settings where
  printTitle : Str
  delimiter : DelimiterType
  customDelimiter : Str
  theme : Str
  paperSize : Str
  paperOrientation : Str
deriving DecidableEq, Repr

/-- `utils.js` `createNewBlock()` with a fresh id. -/
def createNewBlock (id : Nat) : Block :=
  { id := id
    subtitle := []
    codeType := .qr
    qrErrorCorrection := str "M"
    barcodeFormat := str "CODE128"
    sizeOverride := str "auto"
    content := [] }

/-- `utils.js` `createDefaultSettings()`. -/
def createDefaultSettings : Settings :=
  { printTitle := []
    delimiter := .newline
    customDelimiter := []
    theme := str "auto"
    paperSize := str "a4"
    paperOrientation := str "portrait" }

/-- A partial block update (`updateBlock(id, updates)`); the callers in
`app_v2.js` only ever update the non-id fields. -/
structure BlockUpdate where
  subtitle : Option Str := none
  codeType : Option CodeType := none
  qrErrorCorrection : Option Str := none
  barcodeFormat : Option Str := none
  sizeOverride : Option Str := none
  content : Option Str := none
deriving DecidableEq, Repr

/-- `{ ...b, ...updates }`. -/
def applyBlockUpdate (b : Block) (u : BlockUpdate) : Block :=
  { id := b.id
    subtitle := u.subtitle.getD b.subtitle
    codeType := u.codeType.getD b.codeType
    qrErrorCorrection := u.qrErrorCorrection.getD b.qrErrorCorrection
    barcodeFormat := u.barcodeFormat.getD b.barcodeFormat
    sizeOverride := u.sizeOverride.getD b.sizeOverride
    content := u.content.getD b.content }

/-- A partial settings update (`updateSettings(updates)`). -/
structure SettingsUpdate where
  printTitle : Option Str := none
  delimiter : Option DelimiterType := none
  customDelimiter : Option Str := none
  theme : Option Str := none
  paperSize : Option Str := none
  paperOrientation : Option Str := none
deriving DecidableEq, Repr

/-- `{ ...settings, ...updates }`. -/
def applySettingsUpdate (s : Settings) (u : SettingsUpdate) : Settings :=
  { printTitle := u.printTitle.getD s.printTitle
    delimiter := u.delimiter.getD s.delimiter
    customDelimiter := u.customDelimiter.getD s.customDelimiter
    theme := u.theme.getD s.theme
    paperSize := u.paperSize.getD s.paperSize
    paperOrientation := u.paperOrientation.getD s.paperOrientation }

/-! ### The store (`store.js`, i.e. `src/unnamed/part_000`) -/

/-- `types.js` `CONSTANTS.MAX_HISTORY`. -/
def MAX_HISTORY : Nat := 20

/-- `types.js` `CONSTANTS.PROGRESS_THRESHOLD`. -/
def PROGRESS_THRESHOLD : Nat := 50

/-- A history snapshot: a deep copy of `{blocks, settings}`
(`deepClone` is the identity on our immutable values). -/
structure Snap where
  blocks : List Block
  settings : Settings
deriving DecidableEq, Repr

/-- `AppStore` state relevant to blocks/settings/history.  `nextId` is
the fresh-id supply modelling `crypto.randomUUID` (UUIDs never collide,
so ids drawn from it are distinct from every id already in the store). -/
structure Store where
  blocks : List Block
  settings : Settings
  history : List Snap
  historyIndex : Int
  nextId : Nat
deriving DecidableEq, Repr

/-- The `AppStore` constructor state. -/
def initStore : Store :=
  { blocks := [createNewBlock 0]
    settings := createDefaultSettings
    history := []
    historyIndex := -1
    nextId := 1 }

/-- `recordHistory()`: truncate to `[0..historyIndex]`, push a snapshot
of the current state; on overflow `shift()` the oldest entry and keep
the index, otherwise increment the index. -/
def recordHistory (s : Store) : Store :=
  if (s.history.take (s.historyIndex + 1).toNat ++
      [({ blocks := s.blocks, settings := s.settings } : Snap)]).length > MAX_HISTORY then
    { s with history := (s.history.take (s.historyIndex + 1).toNat ++
        [({ blocks := s.blocks, settings := s.settings } : Snap)]).drop 1 }
  else
    { s with
      history := s.history.take (s.historyIndex + 1).toNat ++
        [({ blocks := s.blocks, settings := s.settings } : Snap)]
      historyIndex := s.historyIndex + 1 }

/-- `setState({blocks, settings})` with `recordHistory = true`: record
the pre-mutation state, then apply the change. -/
def setStateRecorded (s : Store) (blocks : List Block) (settings : Settings) : Store :=
  let s1 := recordHistory s
  { s1 with blocks := blocks, settings := settings }

/-- `addBlock()`. -/
def addBlock (s : Store) : Store :=
  let s1 := setStateRecorded s (s.blocks ++ [createNewBlock s.nextId]) s.settings
  { s1 with nextId := s.nextId + 1 }

/-- `removeBlock(id)`: refused when at most one block remains. -/
def removeBlock (s : Store) (id : Nat) : Store :=
  if s.blocks.length ≤ 1 then s
  else setStateRecorded s (s.blocks.filter (fun b => b.id ≠ id)) s.settings

/-- `updateBlock(id, updates)`. -/
def updateBlock (s : Store) (id : Nat) (u : BlockUpdate) : Store :=
  setStateRecorded s
    (s.blocks.map (fun b => if b.id = id then applyBlockUpdate b u else b)) s.settings

/-- `array.splice(n, 0, a)`: insert at position `n` (clamped to the end,
as in JS for indices past the length). -/
def insertAt {α : Type} : Nat → α → List α → List α
  | 0, a, l => a :: l
  | _ + 1, a, [] => [a]
  | n + 1, a, x :: xs => x :: insertAt n a xs

/-- `duplicateBlock(id)`: deep-copy the found block under a fresh id and
insert it right after the original; no-op when the id is absent. -/
def duplicateBlock (s : Store) (id : Nat) : Store :=
  match s.blocks.find? (fun b => b.id = id) with
  | none => s
  | some b =>
    let nb := { b with id := s.nextId }
    let i := s.blocks.findIdx (fun b => b.id = id)
    let s1 := setStateRecorded s (insertAt (i + 1) nb s.blocks) s.settings
    { s1 with nextId := s.nextId + 1 }

/-- `reorderBlocks(fromIndex, toIndex)`: move one block.  The UI only
calls this with in-range drag indices; for an out-of-range `fromIndex`
(where the JS source would splice `undefined` into the array) we record
and keep the block list unchanged. -/
def reorderBlocks (s : Store) (fromIdx toIdx : Nat) : Store :=
  if h : fromIdx < s.blocks.length then
    let removed := s.blocks.get ⟨fromIdx, h⟩
    let rest := s.blocks.eraseIdx fromIdx
    setStateRecorded s (insertAt toIdx removed rest) s.settings
  else setStateRecorded s s.blocks s.settings

/-- `updateSettings(updates)`. -/
def updateSettings (s : Store) (u : SettingsUpdate) : Store :=
  setStateRecorded s s.blocks (applySettingsUpdate s.settings u)

/-- `canUndo()`. -/
def canUndo (s : Store) : Bool := s.historyIndex > 0

/-- `canRedo()`. -/
def canRedo (s : Store) : Bool := s.historyIndex < (s.history.length : Int) - 1

/-- `undo()`: decrement the index, restore that snapshot.  In every
reachable state the new index is in range; the `getD` fallback never
fires there. -/
def undo (s : Store) : Store :=
  if s.historyIndex > 0 then
    let i := s.historyIndex - 1
    let sn := s.history.getD i.toNat { blocks := s.blocks, settings := s.settings }
    { s with historyIndex := i, blocks := sn.blocks, settings := sn.settings }
  else s

/-- `redo()`: increment the index, restore that snapshot. -/
def redo (s : Store) : Store :=
  if s.historyIndex < (s.history.length : Int) - 1 then
    let i := s.historyIndex + 1
    let sn := s.history.getD i.toNat { blocks := s.blocks, settings := s.settings }
    { s with historyIndex := i, blocks := sn.blocks, settings := sn.settings }
  else s

/-- `reset()`: fresh single block, default settings, cleared history. -/
def reset (s : Store) : Store :=
  { blocks := [createNewBlock s.nextId]
    settings := createDefaultSettings
    history := []
    historyIndex := -1
    nextId := s.nextId + 1 }

/-- The `{blocks?, globalSettings?}` payload handed to `fromJSON`.
`blocks = some bs` models a present `data.blocks` array (JS `||` treats
an empty array as truthy, so `some []` installs the empty list). -/
structure JsonData where
  blocks : Option (List Block)
  globalSettings : Option SettingsUpdate
deriving DecidableEq, Repr

/-- Largest id occurring in a block list. -/
def listMaxId (bs : List Block) : Nat := bs.foldr (fun b m => max b.id m) 0

/-- `fromJSON(data)`: install `data.blocks || [createNewBlock()]` and
`{...createDefaultSettings(), ...(data.globalSettings || \x7b\x7d)}`;
`nextId` jumps past the imported ids (imported UUIDs never collide with
ones generated later). -/
def fromJSON (s : Store) (d : JsonData) : Store :=
  let newBlocks := match d.blocks with
    | some bs => bs
    | none => [createNewBlock s.nextId]
  let newSettings := applySettingsUpdate createDefaultSettings (d.globalSettings.getD {})
  let s1 := setStateRecorded s newBlocks newSettings
  { s1 with nextId := max (s.nextId + 1) (listMaxId newBlocks + 1) }

/-- The state-changing store operations. -/
inductive Op where
  | addB
  | removeB (id : Nat)
  | updateB (id : Nat) (u : BlockUpdate)
  | duplicateB (id : Nat)
  | reorderB (fromIdx toIdx : Nat)
  | updateS (u : SettingsUpdate)
  | undoOp
  | redoOp
  | resetOp
  | fromJSONOp (d : JsonData)

/-- Apply one operation. -/
def applyOp (s : Store) : Op → Store
  | .addB => addBlock s
  | .removeB id => removeBlock s id
  | .updateB id u => updateBlock s id u
  | .duplicateB id => duplicateBlock s id
  | .reorderB i j => reorderBlocks s i j
  | .updateS u => updateSettings s u
  | .undoOp => undo s
  | .redoOp => redo s
  | .resetOp => reset s
  | .fromJSONOp d => fromJSON s d

/-- Store states reachable from the constructor state. -/
inductive Reachable : Store → Prop where
  | init : Reachable initStore
  | step (s : Store) (op : Op) : Reachable s → Reachable (applyOp s op)

/-- A recording mutation (the operations whose `setState` records
history; excludes undo/redo/reset/fromJSON). -/
def IsMutation : Op → Prop
  | .addB => True
  | .removeB _ => True
  | .updateB _ _ => True
  | .duplicateB _ => True
  | .reorderB _ _ => True
  | .updateS _ => True
  | _ => False

/-- A `fromJSON` payload that keeps the store well-formed: the imported
blocks array, when present, is non-empty and has pairwise-distinct ids. -/
def GoodOp : Op → Prop
  | .fromJSONOp d =>
    match d.blocks with
    | none => True
    | some bs => bs ≠ [] ∧ (bs.map Block.id).Nodup
  | _ => True

/-- Reachability along operations whose imports are well-formed. -/
inductive ReachableSafe : Store → Prop where
  | init : ReachableSafe initStore
  | step (s : Store) (op : Op) : ReachableSafe s → GoodOp op → ReachableSafe (applyOp s op)

/-! ### History lemmas -/

theorem recordHistory_history (s : Store) :
    (recordHistory s).history =
      (if (s.history.take (s.historyIndex + 1).toNat ++
          [({ blocks := s.blocks, settings := s.settings } : Snap)]).length > MAX_HISTORY
       then (s.history.take (s.historyIndex + 1).toNat ++
          [({ blocks := s.blocks, settings := s.settings } : Snap)]).drop 1
       else s.history.take (s.historyIndex + 1).toNat ++
          [({ blocks := s.blocks, settings := s.settings } : Snap)]) := by
  unfold recordHistory
  split <;> rfl

theorem recordHistory_historyIndex (s : Store) :
    (recordHistory s).historyIndex =
      (if (s.history.take (s.historyIndex + 1).toNat ++
          [({ blocks := s.blocks, settings := s.settings } : Snap)]).length > MAX_HISTORY
       then s.historyIndex else s.historyIndex + 1) := by
  unfold recordHistory
  split <;> rfl

/-- `recordHistory` keeps the history within the bound. -/
theorem recordHistory_length_le (s : Store) (h : s.history.length ≤ MAX_HISTORY) :
    (recordHistory s).history.length ≤ MAX_HISTORY := by
  rw [recordHistory_history]
  split <;> rename_i hc <;>
    simp only [List.length_drop, List.length_append, List.length_take,
      List.length_singleton] at hc ⊢ <;> omega

theorem setStateRecorded_history (s : Store) (bs : List Block) (st : Settings) :
    (setStateRecorded s bs st).history = (recordHistory s).history := rfl

/-- Each operation keeps the history within the bound. -/
theorem applyOp_history_le (s : Store) (op : Op) (h : s.history.length ≤ MAX_HISTORY) :
    (applyOp s op).history.length ≤ MAX_HISTORY := by
  have hrec := recordHistory_length_le s h
  cases op with
  | addB => exact hrec
  | removeB id =>
    by_cases hb : s.blocks.length ≤ 1
    · simpa [applyOp, removeBlock, hb] using h
    · simpa [applyOp, removeBlock, hb] using hrec
  | updateB id u => exact hrec
  | duplicateB id =>
    cases hf : s.blocks.find? (fun b => b.id = id) with
    | none => simpa [applyOp, duplicateBlock, hf] using h
    | some b => simpa [applyOp, duplicateBlock, hf] using hrec
  | reorderB i j =>
    by_cases hi : i < s.blocks.length
    · simpa [applyOp, reorderBlocks, hi] using hrec
    · simpa [applyOp, reorderBlocks, hi] using hrec
  | updateS u => exact hrec
  | undoOp =>
    by_cases hc : s.historyIndex > 0 <;> simpa [applyOp, undo, hc] using h
  | redoOp =>
    by_cases hc : s.historyIndex < (s.history.length : Int) - 1 <;>
      simpa [applyOp, redo, hc] using h
  | resetOp => simp [applyOp, reset, MAX_HISTORY]
  | fromJSONOp d => exact hrec

/-- Every reachable store state keeps at most `MAX_HISTORY` snapshots. -/
theorem reachable_history_le (s : Store) (h : Reachable s) :
    s.history.length ≤ MAX_HISTORY := by
  induction h with
  | init => simp [initStore, MAX_HISTORY]
  | step s op _ ih => exact applyOp_history_le s op ih

/-- **C9.** On every reachable store state, `recordHistory` truncates the
snapshot sequence to indices `0..cursor`, appends a (deep-copied)
snapshot of the pre-mutation `(blocks, settings)`, and then, if the
sequence length exceeds `MAX_HISTORY = 20`, removes the oldest entry
(index 0) keeping the cursor unchanged, otherwise increments the cursor;
consequently the reachable state itself and the state after any further
operation hold at most 20 snapshots. -/
theorem recordHistory_spec_and_bound (s : Store) (h : Reachable s) :
    ((recordHistory s).history =
      (if (s.history.take (s.historyIndex + 1).toNat ++
          [({ blocks := s.blocks, settings := s.settings } : Snap)]).length > MAX_HISTORY
       then (s.history.take (s.historyIndex + 1).toNat ++
          [({ blocks := s.blocks, settings := s.settings } : Snap)]).drop 1
       else s.history.take (s.historyIndex + 1).toNat ++
          [({ blocks := s.blocks, settings := s.settings } : Snap)])) ∧
    ((recordHistory s).historyIndex =
      (if (s.history.take (s.historyIndex + 1).toNat ++
          [({ blocks := s.blocks, settings := s.settings } : Snap)]).length > MAX_HISTORY
       then s.historyIndex else s.historyIndex + 1)) ∧
    s.history.length ≤ MAX_HISTORY ∧
    ∀ op : Op, (applyOp s op).history.length ≤ MAX_HISTORY :=
  ⟨recordHistory_history s, recordHistory_historyIndex s, reachable_history_le s h,
    fun op => applyOp_history_le s op (reachable_history_le s h)⟩

/-- Witness for C9 at the constructor state. -/
theorem recordHistory_spec_and_bound_witness :
    initStore.history.length ≤ MAX_HISTORY ∧
    (applyOp initStore Op.addB).history.length ≤ MAX_HISTORY :=
  ⟨(recordHistory_spec_and_bound initStore Reachable.init).2.2.1,
   (recordHistory_spec_and_bound initStore Reachable.init).2.2.2 Op.addB⟩

/-- **C1 (code bug).** Undo/redo round-trip fails: starting from the
constructor state, two recorded `updateSettings` mutations (print title
`"a"`, then `"b"`) leave one undo-reachable snapshot (`historyIndex =
1`); a single `undo` followed by a single `redo` ends on print title
`"a"`, not on the pre-undo state `"b"`.  `recordHistory` archives the
*pre*-mutation state and the live state is never archived, so `undo`
jumps over the latest state and `redo` can never return to it. -/
theorem undo_redo_roundtrip_fails :
    (let s1 := updateSettings
       (updateSettings initStore { printTitle := some (str "a") })
       { printTitle := some (str "b") }
     s1.historyIndex = 1 ∧ canUndo s1 = true ∧
     s1.settings.printTitle = str "b" ∧
     (redo (undo s1)).blocks = s1.blocks ∧
     (redo (undo s1)).settings.printTitle = str "a" ∧
     redo (undo s1) ≠ s1 ∧
     (undo s1).settings.printTitle = []) := by decide

/-! ### Well-formedness invariant for the block list -/

/-- Well-formed block list: non-empty, pairwise-distinct ids, all ids
below the fresh-id counter. -/
def BlocksWF (bs : List Block) (n : Nat) : Prop :=
  bs ≠ [] ∧ (bs.map Block.id).Nodup ∧ ∀ b ∈ bs, b.id < n

/-- Well-formed store: live blocks and every archived snapshot are
well-formed. -/
def StoreWF (s : Store) : Prop :=
  BlocksWF s.blocks s.nextId ∧ ∀ sn ∈ s.history, BlocksWF sn.blocks s.nextId

theorem BlocksWF.mono {bs : List Block} {n m : Nat} (h : BlocksWF bs n) (hm : n ≤ m) :
    BlocksWF bs m :=
  ⟨h.1, h.2.1, fun b hb => lt_of_lt_of_le (h.2.2 b hb) hm⟩

theorem BlocksWF.perm {bs bs2 : List Block} {n : Nat} (hp : List.Perm bs bs2)
    (h : BlocksWF bs n) : BlocksWF bs2 n := by
  refine ⟨?_, (hp.map Block.id).nodup h.2.1, fun b hb => h.2.2 b (hp.mem_iff.2 hb)⟩
  intro hnil
  exact h.1 (List.eq_nil_of_length_eq_zero (hp.length_eq.trans (by simp [hnil])))

theorem insertAt_perm {α : Type} (n : Nat) (a : α) :
    ∀ l : List α, List.Perm (insertAt n a l) (a :: l) := by
  induction n with
  | zero => intro l; rw [insertAt]
  | succ n ih =>
    intro l
    cases l with
    | nil => rw [insertAt]
    | cons x xs =>
      rw [insertAt]
      exact ((ih xs).cons x).trans (List.Perm.swap a x xs)

theorem get_cons_eraseIdx_perm {α : Type} :
    ∀ (l : List α) (i : Nat) (h : i < l.length),
      List.Perm l (l.get ⟨i, h⟩ :: l.eraseIdx i) := by
  intro l
  induction l with
  | nil => intro i h; simp at h
  | cons x xs ih =>
    intro i h
    cases i with
    | zero => simp [List.eraseIdx]
    | succ i =>
      have hi : i < xs.length := by simpa using h
      have := (ih i hi).cons x
      refine this.trans ?_
      simpa [List.eraseIdx] using List.Perm.swap (xs.get ⟨i, hi⟩) x (xs.eraseIdx i)

/-- Snapshots after `recordHistory` are old snapshots or the pre-mutation
state. -/
theorem recordHistory_mem (s : Store) (sn : Snap)
    (h : sn ∈ (recordHistory s).history) :
    sn ∈ s.history ∨ sn = { blocks := s.blocks, settings := s.settings } := by
  rw [recordHistory_history] at h
  have hsub : sn ∈ s.history.take (s.historyIndex + 1).toNat ++
      [({ blocks := s.blocks, settings := s.settings } : Snap)] := by
    rcases Classical.em ((s.history.take (s.historyIndex + 1).toNat ++
        [({ blocks := s.blocks, settings := s.settings } : Snap)]).length > MAX_HISTORY) with hc | hc
    · rw [if_pos hc] at h
      exact (List.drop_sublist 1 _).mem h
    · rwa [if_neg hc] at h
  rcases List.mem_append.1 hsub with hl | hr
  · exact Or.inl ((List.take_sublist _ _).mem hl)
  · exact Or.inr (by simpa using hr)

/-- `setStateRecorded` followed by a counter bump preserves
well-formedness, provided the new blocks are well-formed under the new
counter. -/
theorem StoreWF_record (s : Store) (bs : List Block) (st : Settings) (m : Nat)
    (hw : StoreWF s) (hm : s.nextId ≤ m) (hbs : BlocksWF bs m) :
    StoreWF { setStateRecorded s bs st with nextId := m } := by
  refine ⟨hbs, fun sn hsn => ?_⟩
  rcases recordHistory_mem s sn hsn with hold | heq
  · exact (hw.2 sn hold).mono hm
  · exact heq ▸ hw.1.mono hm

theorem recordHistory_nextId (s : Store) : (recordHistory s).nextId = s.nextId := by
  unfold recordHistory
  split <;> rfl

/-- `setStateRecorded` with an unchanged counter preserves
well-formedness. -/
theorem StoreWF_record2 (s : Store) (bs : List Block) (st : Settings)
    (hw : StoreWF s) (hbs : BlocksWF bs s.nextId) :
    StoreWF (setStateRecorded s bs st) := by
  have hnx : (setStateRecorded s bs st).nextId = s.nextId := recordHistory_nextId s
  constructor
  · show BlocksWF bs (setStateRecorded s bs st).nextId
    rw [hnx]
    exact hbs
  · intro sn hsn
    rw [hnx]
    rcases recordHistory_mem s sn hsn with hold | heq
    · exact hw.2 sn hold
    · exact heq ▸ hw.1

theorem listMaxId_ge (bs : List Block) : ∀ b ∈ bs, b.id ≤ listMaxId bs := by
  induction bs with
  | nil => simp
  | cons x xs ih =>
    intro b hb
    rcases List.mem_cons.1 hb with hb | hb
    · subst hb
      exact le_max_of_le_left (le_refl _)
    · exact le_max_of_le_right (ih b hb)

theorem filter_remove_ne_nil (bs : List Block) (hn : (bs.map Block.id).Nodup)
    (hlen : 2 ≤ bs.length) (id : Nat) :
    bs.filter (fun b => b.id ≠ id) ≠ [] := by
  match bs, hlen with
  | b1 :: b2 :: rest, _ =>
    by_cases h1 : b1.id = id
    · have h2 : b2.id ≠ id := by
        intro h2
        simp [List.nodup_cons] at hn
        exact hn.1.1 (by rw [h1, h2])
      have hmem : b2 ∈ (b1 :: b2 :: rest).filter (fun b => b.id ≠ id) :=
        List.mem_filter.2 ⟨by simp, by simpa using h2⟩
      exact List.ne_nil_of_mem hmem
    · have hmem : b1 ∈ (b1 :: b2 :: rest).filter (fun b => b.id ≠ id) :=
        List.mem_filter.2 ⟨by simp, by simpa using h1⟩
      exact List.ne_nil_of_mem hmem

/-- Every operation with a well-formed import payload preserves store
well-formedness. -/
theorem applyOp_WF (s : Store) (op : Op) (hw : StoreWF s) (hg : GoodOp op) :
    StoreWF (applyOp s op) := by
  cases op with
  | addB =>
    refine StoreWF_record s _ s.settings (s.nextId + 1) hw (Nat.le_succ _) ?_
    refine ⟨by simp, ?_, ?_⟩
    · rw [List.map_append]
      rw [List.nodup_append]
      refine ⟨hw.1.2.1, by simp [createNewBlock], ?_⟩
      intro x hx
      simp only [List.map_cons, List.map_nil, List.mem_singleton, createNewBlock] at *
      obtain ⟨b, hb, rfl⟩ := List.mem_map.1 hx
      intro hcontra
      exact absurd (hcontra ▸ hw.1.2.2 b hb) (lt_irrefl _)
    · intro b hb
      rcases List.mem_append.1 hb with hl | hr
      · exact Nat.lt_succ_of_lt (hw.1.2.2 b hl)
      · simp only [List.mem_singleton] at hr
        simp [hr, createNewBlock]
  | removeB id =>
    by_cases hlen : s.blocks.length ≤ 1
    · simpa [applyOp, removeBlock, hlen] using hw
    · have hgoal : StoreWF (setStateRecorded s
          (s.blocks.filter (fun b => b.id ≠ id)) s.settings) := by
        refine StoreWF_record2 s _ s.settings hw ?_
        refine ⟨filter_remove_ne_nil s.blocks hw.1.2.1 (by omega) id, ?_, ?_⟩
        · have hsub : List.Sublist ((s.blocks.filter (fun b => b.id ≠ id)).map Block.id)
              (s.blocks.map Block.id) := (List.filter_sublist _).map Block.id
          exact hw.1.2.1.sublist hsub
        · intro b hb
          exact hw.1.2.2 b (List.mem_of_mem_filter hb)
      simpa [applyOp, removeBlock, hlen] using hgoal
  | updateB id u =>
    have hids : (s.blocks.map
        (fun b => if b.id = id then applyBlockUpdate b u else b)).map Block.id =
        s.blocks.map Block.id := by
      rw [List.map_map]
      refine List.map_congr_left ?_
      intro b _
      by_cases hb : b.id = id <;> simp [hb, applyBlockUpdate]
    have hgoal : StoreWF (setStateRecorded s
        (s.blocks.map (fun b => if b.id = id then applyBlockUpdate b u else b))
        s.settings) := by
      refine StoreWF_record2 s _ s.settings hw ?_
      refine ⟨by simpa using hw.1.1, hids ▸ hw.1.2.1, ?_⟩
      intro b hb
      obtain ⟨b0, hb0, rfl⟩ := List.mem_map.1 hb
      by_cases hcase : b0.id = id <;>
        simpa [hcase, applyBlockUpdate] using hw.1.2.2 b0 hb0
    simpa [applyOp, updateBlock] using hgoal
  | duplicateB id =>
    cases hf : s.blocks.find? (fun b => b.id = id) with
    | none => simpa [applyOp, duplicateBlock, hf] using hw
    | some b =>
      have hperm := insertAt_perm (s.blocks.findIdx (fun b => b.id = id) + 1)
        ({ b with id := s.nextId }) s.blocks
      have hgoal : StoreWF { setStateRecorded s
          (insertAt (s.blocks.findIdx (fun b => b.id = id) + 1)
            { b with id := s.nextId } s.blocks) s.settings with nextId := s.nextId + 1 } := by
        refine StoreWF_record s _ s.settings (s.nextId + 1) hw (Nat.le_succ _) ?_
        refine BlocksWF.perm hperm.symm ?_
        refine ⟨by simp, ?_, ?_⟩
        · rw [List.map_cons, List.nodup_cons]
          refine ⟨?_, hw.1.2.1⟩
          intro hmem
          obtain ⟨b2, hb2, hid⟩ := List.mem_map.1 hmem
          exact absurd (hid ▸ hw.1.2.2 b2 hb2) (by simp)
        · intro b2 hb2
          rcases List.mem_cons.1 hb2 with hb2 | hb2
          · simp [hb2]
          · exact Nat.lt_succ_of_lt (hw.1.2.2 b2 hb2)
      simpa [applyOp, duplicateBlock, hf] using hgoal
  | reorderB i j =>
    by_cases hi : i < s.blocks.length
    · have hperm : List.Perm (insertAt j (s.blocks.get ⟨i, hi⟩)
          (s.blocks.eraseIdx i)) s.blocks :=
        (insertAt_perm j _ _).trans (get_cons_eraseIdx_perm s.blocks i hi).symm
      have hgoal : StoreWF (setStateRecorded s
          (insertAt j (s.blocks.get ⟨i, hi⟩) (s.blocks.eraseIdx i)) s.settings) :=
        StoreWF_record2 s _ s.settings hw (BlocksWF.perm hperm.symm hw.1)
      simpa [applyOp, reorderBlocks, hi] using hgoal
    · have hgoal : StoreWF (setStateRecorded s s.blocks s.settings) :=
        StoreWF_record2 s _ s.settings hw hw.1
      simpa [applyOp, reorderBlocks, hi] using hgoal
  | updateS u =>
    have hgoal : StoreWF (setStateRecorded s s.blocks
        (applySettingsUpdate s.settings u)) :=
      StoreWF_record2 s _ _ hw hw.1
    simpa [applyOp, updateSettings] using hgoal
  | undoOp =>
    by_cases hc : s.historyIndex > 0
    · have hsn : BlocksWF (s.history.getD (s.historyIndex - 1).toNat
          { blocks := s.blocks, settings := s.settings }).blocks s.nextId := by
        by_cases hlt : (s.historyIndex - 1).toNat < s.history.length
        · rw [List.getD_eq_getElem s.history _ hlt]
          exact hw.2 _ (s.history.getElem_mem hlt)
        · rw [List.getD_eq_default s.history _ (by omega)]
          exact hw.1
      refine ⟨?_, ?_⟩ <;> simp only [applyOp, undo, if_pos hc]
      · exact hsn
      · exact hw.2
    · simpa [applyOp, undo, hc] using hw
  | redoOp =>
    by_cases hc : s.historyIndex < (s.history.length : Int) - 1
    · have hsn : BlocksWF (s.history.getD (s.historyIndex + 1).toNat
          { blocks := s.blocks, settings := s.settings }).blocks s.nextId := by
        by_cases hlt : (s.historyIndex + 1).toNat < s.history.length
        · rw [List.getD_eq_getElem s.history _ hlt]
          exact hw.2 _ (s.history.getElem_mem hlt)
        · rw [List.getD_eq_default s.history _ (by omega)]
          exact hw.1
      refine ⟨?_, ?_⟩ <;> simp only [applyOp, redo, if_pos hc]
      · exact hsn
      · exact hw.2
    · simpa [applyOp, redo, hc] using hw
  | resetOp =>
    refine ⟨⟨by simp [applyOp, reset], by simp [applyOp, reset], ?_⟩, ?_⟩
    · intro b hb
      simp only [applyOp, reset, List.mem_singleton] at hb
      simp [hb, createNewBlock, applyOp, reset]
    · intro sn hsn
      simp [applyOp, reset] at hsn
  | fromJSONOp d =>
    cases hd : d.blocks with
    | none =>
      have hgoal : StoreWF { setStateRecorded s [createNewBlock s.nextId]
          (applySettingsUpdate createDefaultSettings (d.globalSettings.getD {})) with
          nextId := max (s.nextId + 1) (listMaxId [createNewBlock s.nextId] + 1) } := by
        refine StoreWF_record s _ _ _ hw (le_max_of_le_left (Nat.le_succ _)) ?_
        refine ⟨by simp, by simp, ?_⟩
        intro b hb
        simp only [List.mem_singleton] at hb
        subst hb
        simp only [createNewBlock, listMaxId, List.foldr]
        omega
      simpa [applyOp, fromJSON, hd] using hgoal
    | some bs =>
      have hgood : bs ≠ [] ∧ (bs.map Block.id).Nodup := by
        simpa [GoodOp, hd] using hg
      have hgoal : StoreWF { setStateRecorded s bs
          (applySettingsUpdate createDefaultSettings (d.globalSettings.getD {})) with
          nextId := max (s.nextId + 1) (listMaxId bs + 1) } := by
        refine StoreWF_record s _ _ _ hw (le_max_of_le_left (Nat.le_succ _)) ?_
        refine ⟨hgood.1, hgood.2, ?_⟩
        intro b hb
        have hle := listMaxId_ge bs b hb
        omega
      simpa [applyOp, fromJSON, hd] using hgoal

/-- Every safely-reachable store state is well-formed. -/
theorem reachableSafe_WF (s : Store) (h : ReachableSafe s) : StoreWF s := by
  induction h with
  | init =>
    refine ⟨⟨by simp [initStore], by simp [initStore], ?_⟩, ?_⟩
    · intro b hb
      simp only [initStore, List.mem_singleton] at hb
      simp [hb, createNewBlock, initStore]
    · intro sn hsn
      simp [initStore] at hsn
  | step s op _ hg ih => exact applyOp_WF s op ih hg

/-- **C3 (amended).** The initial store holds exactly one block;
`removeBlock` is a no-op whenever exactly one block remains; and every
operation — including undo/redo/reset — preserves non-emptiness of the
block list along any reachable trace whose `fromJSON` payloads are
well-formed (blocks array absent, or non-empty with pairwise-distinct
ids).  The proviso is forced by the counterexample: `fromJSON` installs
an explicitly-present empty `blocks` array as-is, since JavaScript
`data.blocks || [createNewBlock()]` treats `[]` as truthy. -/
theorem blocks_nonempty_invariant :
    initStore.blocks.length = 1 ∧
    (∀ (s : Store) (id : Nat), s.blocks.length = 1 → removeBlock s id = s) ∧
    (∀ s : Store, ReachableSafe s → s.blocks ≠ []) := by
  refine ⟨by decide, ?_, fun s h => (reachableSafe_WF s h).1.1⟩
  intro s id hlen
  simp [removeBlock, hlen]

/-- Witness for C3 at concrete states. -/
theorem blocks_nonempty_invariant_witness :
    removeBlock initStore 0 = initStore ∧ initStore.blocks ≠ [] :=
  ⟨blocks_nonempty_invariant.2.1 initStore 0 (by decide),
   blocks_nonempty_invariant.2.2 initStore ReachableSafe.init⟩

/-- **C3 counterexample.** One `fromJSON` step from the initial state,
with a present-but-empty blocks array, reaches a live state with zero
blocks — refuting the claim that every state-changing operation
(including `fromJSON`) preserves "at least one block exists". -/
theorem fromJSON_empty_blocks_counterexample :
    Reachable (applyOp initStore
      (Op.fromJSONOp { blocks := some [], globalSettings := none })) ∧
    (applyOp initStore
      (Op.fromJSONOp { blocks := some [], globalSettings := none })).blocks = [] :=
  ⟨Reachable.step initStore _ Reachable.init, by decide⟩

/-! ### Code generation (`app_v2.js` `generateCodes`, `qrGenerator.js`,
`barcodeGenerator.js`, `worker.js`) -/

/-- `ValidationError.errorType` values. -/
inductive ErrType where
  | validationFailed | generationFailed
deriving DecidableEq, Repr

/-- `QRGenerator.generate` result (`{svgString, moduleCount, size}`;
the SVG string is irrelevant to the claims). -/
structure QrData where
  moduleCount : Nat
  size : Str
deriving DecidableEq, Repr

/-- The opaque `qrcode` drawing capability: module count on success,
`none` when the library is missing or throws. -/
abbrev QrOracle := Str → Str → Option Nat

/-- `QRGenerator.generate(text, errorCorrectionLevel)`. -/
def qrGenerate (qo : QrOracle) (text ec : Str) : Option QrData :=
  (qo text ec).map (fun mc => { moduleCount := mc, size := getQRSize mc })

/-- Outcome of a `JsBarcode` call: normal return or a thrown error. -/
inductive BcOutcome where
  | ok | threw (msg : Str)
deriving DecidableEq, Repr

/-- The opaque `JsBarcode` drawing capability. -/
abbrev BcOracle := Str → Str → BcOutcome

/-- `BarcodeGenerator.generate` result (`{svg, size, validation}`;
`hasSvg` is whether `svg` is non-null, `error` the validation/throw
message, empty when absent). -/
structure BcResult where
  hasSvg : Bool
  size : Str
  valid : Bool
  error : Str
deriving DecidableEq, Repr

/-- `BarcodeGenerator.generate(text, format)`: validate first and return
without drawing on failure; otherwise draw, catching any throw. -/
def bcGenerate (bo : BcOracle) (text format : Str) : BcResult :=
  if (validateBarcodeFormat text format).valid = false then
    { hasSvg := false
      size := getBarcodeSize text.length
      valid := false
      error := (validateBarcodeFormat text format).error }
  else
    match bo text format with
    | .ok =>
      { hasSvg := true, size := getBarcodeSize text.length, valid := true, error := [] }
    | .threw msg =>
      { hasSvg := false, size := str "medium", valid := false, error := msg }

/-- One generated code as pushed by `generateCodes` /
`finalizeCodesFromWorker` (`qrData`/`barcodeData` according to the code
type; the worker-finalized codes carry no `subtitle`). -/
structure GenCode where
  blockId : Nat
  blockIndex : Nat
  index : Nat
  text : Str
  codeType : CodeType
  qrData : Option QrData
  bcData : Option BcResult
  size : Str
  subtitle : Option Str
deriving DecidableEq, Repr

/-- One `ValidationError` as pushed by `generateCodes`. -/
structure GenErr where
  blockId : Nat
  lineNumber : Nat
  text : Str
  errorType : ErrType
  message : Str
deriving DecidableEq, Repr

/-- `'QRコード生成に失敗しました'`. -/
def qrFailMessage : Str := str "QRコード生成に失敗しました"

/-- `'バーコード生成に失敗しました'`. -/
def bcFailMessage : Str := str "バーコード生成に失敗しました"

/-- The body of the per-item loop of the direct path of
`generateCodes` (`app_v2.js` lines 546–606): one success or one error
per item, with the running `itemIndex` used as `index` / `lineNumber`. -/
def processItem (qo : QrOracle) (bo : BcOracle) (b : Block)
    (blockIndex itemIndex : Nat) (text : Str) : Sum GenCode GenErr :=
  match b.codeType with
  | .qr =>
    match qrGenerate qo text b.qrErrorCorrection with
    | some qd =>
      .inl { blockId := b.id, blockIndex := blockIndex, index := itemIndex, text := text
             codeType := .qr, qrData := some qd, bcData := none
             size := if b.sizeOverride = str "auto" then qd.size else b.sizeOverride
             subtitle := some b.subtitle }
    | none =>
      .inr { blockId := b.id, lineNumber := itemIndex, text := text
             errorType := .generationFailed, message := qrFailMessage }
  | .barcode =>
    if (validateBarcodeFormat text b.barcodeFormat).valid = false then
      .inr { blockId := b.id, lineNumber := itemIndex, text := text
             errorType := .validationFailed
             message := (validateBarcodeFormat text b.barcodeFormat).error }
    else
      if (bcGenerate bo text b.barcodeFormat).hasSvg then
        .inl { blockId := b.id, blockIndex := blockIndex, index := itemIndex, text := text
               codeType := .barcode, qrData := none
               bcData := some (bcGenerate bo text b.barcodeFormat)
               size := if b.sizeOverride = str "auto"
                 then (bcGenerate bo text b.barcodeFormat).size else b.sizeOverride
               subtitle := some b.subtitle }
      else
        .inr { blockId := b.id, lineNumber := itemIndex, text := text
               errorType := .generationFailed
               message := if (bcGenerate bo text b.barcodeFormat).error = []
                 then bcFailMessage else (bcGenerate bo text b.barcodeFormat).error }

/-- The item loop of one block, with the 1-based per-block counter. -/
def processItems (qo : QrOracle) (bo : BcOracle) (b : Block) (blockIndex : Nat) :
    Nat → List Str → List (Sum GenCode GenErr)
  | _, [] => []
  | idx, t :: ts =>
    processItem qo bo b blockIndex idx t :: processItems qo bo b blockIndex (idx + 1) ts

/-- The successes, in traversal order (`codes.push`). -/
def codesOf (l : List (Sum GenCode GenErr)) : List GenCode :=
  l.filterMap (fun e => match e with | .inl c => some c | .inr _ => none)

/-- The failures, in traversal order (`errors.push`). -/
def errsOf (l : List (Sum GenCode GenErr)) : List GenErr :=
  l.filterMap (fun e => match e with | .inl _ => none | .inr e => some e)

/-- The block loop of the direct path (blocks with blank content are
skipped). -/
def generateBlocksAux (qo : QrOracle) (bo : BcOracle) (delim : Str) :
    Nat → List Block → List (Sum GenCode GenErr)
  | _, [] => []
  | bi, b :: bs =>
    (if jsTrim b.content = [] then []
     else processItems qo bo b bi 1 (parseContent b.content delim)) ++
    generateBlocksAux qo bo delim (bi + 1) bs

/-- The direct (main-thread) path of `generateCodes`: the ordered codes
list and the ordered errors list. -/
def generateCodesDirect (qo : QrOracle) (bo : BcOracle)
    (blocks : List Block) (settings : Settings) : List GenCode × List GenErr :=
  let events := generateBlocksAux qo bo
    (getDelimiter settings.delimiter settings.customDelimiter) 0 blocks
  (codesOf events, errsOf events)

/-- The item count of `generateCodes` (blocks with blank content
contribute nothing). -/
def totalCount (blocks : List Block) (settings : Settings) : Nat :=
  blocks.foldl (fun acc b =>
    if jsTrim b.content = [] then acc
    else acc + (parseContent b.content
      (getDelimiter settings.delimiter settings.customDelimiter)).length) 0

/-- The dispatch decision of `generateCodes`: delegate to the worker
exactly when `totalCount >= PROGRESS_THRESHOLD && this.worker`. -/
def usesWorkerPath (blocks : List Block) (settings : Settings)
    (workerAvailable : Bool) : Bool :=
  decide (PROGRESS_THRESHOLD ≤ totalCount blocks settings) && workerAvailable

/-- One flat request record emitted by `worker.js`. -/
structure WorkItem where
  blockId : Nat
  blockIndex : Nat
  itemIndex : Nat
  text : Str
  codeType : CodeType
  qrErrorCorrection : Str
  barcodeFormat : Str
  sizeOverride : Str
deriving DecidableEq, Repr

/-- The item loop of `worker.js` (`items.forEach((item, itemIndex))`,
0-based). -/
def workerItemsOfBlock (b : Block) (blockIndex : Nat) :
    Nat → List Str → List WorkItem
  | _, [] => []
  | k, t :: ts =>
    { blockId := b.id, blockIndex := blockIndex, itemIndex := k, text := t
      codeType := b.codeType, qrErrorCorrection := b.qrErrorCorrection
      barcodeFormat := b.barcodeFormat, sizeOverride := b.sizeOverride } ::
    workerItemsOfBlock b blockIndex (k + 1) ts

/-- The block loop of `worker.js`; its local `getDelimiter` and
`parseContent` re-implementations agree with the `utils.js` ones on
every `DelimiterType`, so the shared definitions embed both. -/
def workerExpandAux (delim : Str) : Nat → List Block → List WorkItem
  | _, [] => []
  | bi, b :: bs =>
    (if jsTrim b.content = [] then []
     else workerItemsOfBlock b bi 0 (parseContent b.content delim)) ++
    workerExpandAux delim (bi + 1) bs

/-- The flat request list of the worker's COMPLETE message. -/
def workerExpand (blocks : List Block) (settings : Settings) : List WorkItem :=
  workerExpandAux (getDelimiter settings.delimiter settings.customDelimiter) 0 blocks

/-- One iteration of `finalizeCodesFromWorker`: a code on success,
nothing at all on failure (no error is pushed). -/
def finalizeItem (qo : QrOracle) (bo : BcOracle) (item : WorkItem) : Option GenCode :=
  match item.codeType with
  | .qr =>
    (qrGenerate qo item.text item.qrErrorCorrection).map (fun qd =>
      { blockId := item.blockId, blockIndex := item.blockIndex
        index := item.itemIndex + 1, text := item.text
        codeType := .qr, qrData := some qd, bcData := none
        size := if item.sizeOverride = str "auto" then qd.size else item.sizeOverride
        subtitle := none })
  | .barcode =>
    if (bcGenerate bo item.text item.barcodeFormat).hasSvg then
      some { blockId := item.blockId, blockIndex := item.blockIndex
             index := item.itemIndex + 1, text := item.text
             codeType := .barcode, qrData := none
             bcData := some (bcGenerate bo item.text item.barcodeFormat)
             size := if item.sizeOverride = str "auto"
               then (bcGenerate bo item.text item.barcodeFormat).size
               else item.sizeOverride
             subtitle := none }
    else none

/-- `finalizeCodesFromWorker(results)`: collects codes only; its local
`errors` array is never pushed to or stored. -/
def finalizeCodesFromWorker (qo : QrOracle) (bo : BcOracle)
    (results : List WorkItem) : List GenCode × List GenErr :=
  (results.filterMap (finalizeItem qo bo), [])

/-! ### Lemmas about splitting and counting -/

theorem jsSplitAux_mem_chars (sep : List Char) :
    ∀ (fuel : Nat) (s cur p : List Char), p ∈ jsSplitAux sep fuel s cur →
      ∀ c ∈ p, c ∈ cur ∨ c ∈ s := by
  intro fuel
  induction fuel with
  | zero =>
    intro s cur p hp c hc
    simp only [jsSplitAux, List.mem_singleton] at hp
    subst hp
    exact (List.mem_append.1 hc).imp id id
  | succ fuel ih =>
    intro s cur p hp c hc
    cases s with
    | nil =>
      simp only [jsSplitAux, List.mem_singleton] at hp
      subst hp
      exact Or.inl hc
    | cons x rest =>
      rw [jsSplitAux] at hp
      split at hp
      · rcases List.mem_cons.1 hp with hp | hp
        · subst hp
          exact Or.inl hc
        · rcases ih _ [] p hp c hc with hcur | hs
          · simp at hcur
          · exact Or.inr ((List.drop_sublist _ _).mem hs |> List.mem_cons_of_mem x)
      · rcases ih rest (cur ++ [x]) p hp c hc with hcur | hs
        · rcases List.mem_append.1 hcur with h | h
          · exact Or.inl h
          · simp only [List.mem_singleton] at h
            exact Or.inr (h ▸ List.mem_cons_self x rest)
        · exact Or.inr (List.mem_cons_of_mem x hs)

theorem jsTrim_eq_nil_iff (s : Str) : jsTrim s = [] ↔ ∀ c ∈ s, isJsSpace c := by
  unfold jsTrim
  rw [List.reverse_eq_nil_iff, List.dropWhile_eq_nil_iff]
  constructor
  · intro h c hc
    rcases List.mem_append.1
      ((List.takeWhile_append_dropWhile (p := isJsSpace) (l := s)) ▸ hc : c ∈ _) with h1 | h1
    · exact List.mem_takeWhile_imp h1
    · exact h c (List.mem_reverse.2 h1)
  · intro h c hc
    exact h c ((List.dropWhile_sublist _).mem (List.mem_reverse.1 hc))

theorem parseContent_eq_nil_of_trim_nil (content d : Str)
    (h : jsTrim content = []) : parseContent content d = [] := by
  have hall : ∀ c ∈ content, isJsSpace c := (jsTrim_eq_nil_iff content).1 h
  unfold parseContent
  rw [List.filter_eq_nil_iff]
  intro x hx
  obtain ⟨p, hp, rfl⟩ := List.mem_map.1 hx
  have hpc : ∀ c ∈ p, isJsSpace c := by
    intro c hc
    rcases jsSplitAux_mem_chars d content.length content [] p hp c hc with h1 | h1
    · simp at h1
    · exact hall c h1
  simp [(jsTrim_eq_nil_iff p).2 hpc]

theorem totalCount_foldl (blocks : List Block) (settings : Settings) :
    ∀ acc : Nat, blocks.foldl (fun acc b =>
        if jsTrim b.content = [] then acc
        else acc + (parseContent b.content
          (getDelimiter settings.delimiter settings.customDelimiter)).length) acc =
      acc + (blocks.map (fun b => (parseContent b.content
        (getDelimiter settings.delimiter settings.customDelimiter)).length)).sum := by
  induction blocks with
  | nil => intro acc; simp
  | cons b bs ih =>
    intro acc
    by_cases hb : jsTrim b.content = []
    · rw [List.foldl_cons, if_pos hb, List.map_cons, List.sum_cons,
        parseContent_eq_nil_of_trim_nil b.content _ hb, ih acc]
      simp
    · rw [List.foldl_cons, if_neg hb, List.map_cons, List.sum_cons, ih]
      omega

/-- The test block for the threshold boundary: `n` newline-separated
one-character items. -/
def blockOfN (n : Nat) : Block :=
  { createNewBlock 0 with content := List.intercalate ['\n'] (List.replicate n ['a']) }

/-- **C8.** `generateCodes` delegates to the worker exactly when the
total item count (blank-content blocks contributing zero, equivalently
the sum of the per-block item counts) reaches `PROGRESS_THRESHOLD = 50`
and a worker channel was constructed; without a worker the direct path
is always used; a 49-item batch is direct, a 50-item batch is
delegated. -/
theorem generateCodes_dispatch :
    (∀ (blocks : List Block) (settings : Settings) (w : Bool),
      usesWorkerPath blocks settings w = true ↔
        (PROGRESS_THRESHOLD ≤ totalCount blocks settings ∧ w = true)) ∧
    (∀ (blocks : List Block) (settings : Settings),
      totalCount blocks settings =
        (blocks.map (fun b => (parseContent b.content
          (getDelimiter settings.delimiter settings.customDelimiter)).length)).sum) ∧
    (∀ (blocks : List Block) (settings : Settings),
      usesWorkerPath blocks settings false = false) ∧
    usesWorkerPath [blockOfN 49] createDefaultSettings true = false ∧
    usesWorkerPath [blockOfN 50] createDefaultSettings true = true := by
  refine ⟨?_, ?_, ?_, by decide, by decide⟩
  · intro blocks settings w
    simp [usesWorkerPath]
  · intro blocks settings
    simpa using totalCount_foldl blocks settings 0
  · intro blocks settings
    simp [usesWorkerPath]

/-! ### Per-item contract of the direct path (C5) -/

/-- The per-item counter as it appears in the output: `index` on a
success, `lineNumber` on an error. -/
def eventNumber : Sum GenCode GenErr → Nat
  | .inl c => c.index
  | .inr e => e.lineNumber

theorem processItem_number (qo : QrOracle) (bo : BcOracle) (b : Block)
    (bi idx : Nat) (t : Str) : eventNumber (processItem qo bo b bi idx t) = idx := by
  unfold processItem
  cases b.codeType with
  | qr => cases qrGenerate qo t b.qrErrorCorrection <;> rfl
  | barcode =>
    by_cases h1 : (validateBarcodeFormat t b.barcodeFormat).valid = false
    · simp [h1, eventNumber]
    · by_cases h2 : (bcGenerate bo t b.barcodeFormat).hasSvg <;>
        simp [h1, h2, eventNumber]

theorem processItems_length (qo : QrOracle) (bo : BcOracle) (b : Block) (bi : Nat) :
    ∀ (k : Nat) (items : List Str),
      (processItems qo bo b bi k items).length = items.length := by
  intro k items
  induction items generalizing k with
  | nil => rfl
  | cons t ts ih => simp [processItems, ih]

theorem processItems_number (qo : QrOracle) (bo : BcOracle) (b : Block) (bi : Nat) :
    ∀ (items : List Str) (k j : Nat) (ev : Sum GenCode GenErr),
      (processItems qo bo b bi k items).get? j = some ev → eventNumber ev = k + j := by
  intro items
  induction items with
  | nil => intro k j ev h; simp [processItems] at h
  | cons t ts ih =>
    intro k j ev h
    cases j with
    | zero =>
      simp only [processItems, List.get?_cons_zero, Option.some_inj] at h
      rw [← h, processItem_number]
      omega
    | succ j =>
      simp only [processItems, List.get?_cons_succ] at h
      have := ih (k + 1) j ev h
      omega

/-- **C5.** On the direct path, for every barcode item: validation is
evaluated first and an invalid item is recorded as a `validation_failed`
ValidationError carrying the validator's message — for *every* drawing
oracle `bo`, i.e. without consulting the drawing capability; a valid
item whose drawing throws is recorded as `generation_failed`; and the
per-block counter starts at 1 and increments on every item, success or
failure, appearing as `index` on codes and `lineNumber` on errors. -/
theorem barcode_direct_item_contract :
    (∀ (qo : QrOracle) (bo : BcOracle) (b : Block) (bi idx : Nat) (t : Str),
      b.codeType = .barcode →
      (validateBarcodeFormat t b.barcodeFormat).valid = false →
      processItem qo bo b bi idx t = Sum.inr
        { blockId := b.id
          lineNumber := idx
          text := t
          errorType := .validationFailed
          message := (validateBarcodeFormat t b.barcodeFormat).error }) ∧
    (∀ (qo : QrOracle) (bo : BcOracle) (b : Block) (bi idx : Nat) (t m : Str),
      b.codeType = .barcode →
      (validateBarcodeFormat t b.barcodeFormat).valid = true →
      bo t b.barcodeFormat = .threw m →
      processItem qo bo b bi idx t = Sum.inr
        { blockId := b.id
          lineNumber := idx
          text := t
          errorType := .generationFailed
          message := if m = [] then bcFailMessage else m }) ∧
    (∀ (qo : QrOracle) (bo : BcOracle) (b : Block) (bi k : Nat) (items : List Str),
      (processItems qo bo b bi k items).length = items.length) ∧
    (∀ (qo : QrOracle) (bo : BcOracle) (b : Block) (bi : Nat) (items : List Str)
      (j : Nat) (ev : Sum GenCode GenErr),
      (processItems qo bo b bi 1 items).get? j = some ev → eventNumber ev = 1 + j) := by
  refine ⟨?_, ?_, ?_, ?_⟩
  · intro qo bo b bi idx t hct hval
    unfold processItem
    rw [hct]
    simp [hval]
  · intro qo bo b bi idx t m hct hval hbo
    unfold processItem
    rw [hct]
    have hbc : bcGenerate bo t b.barcodeFormat =
        { hasSvg := false, size := str "medium", valid := false, error := m } := by
      unfold bcGenerate
      rw [hval]
      simp [hbo]
    simp [hval, hbc]
  · intro qo bo b bi k items
    exact processItems_length qo bo b bi k items
  · intro qo bo b bi items j ev h
    exact processItems_number qo bo b bi items 1 j ev h

/-- Witness for C5 at concrete inputs: an 11-digit EAN13 item fails
validation (for an oracle that would even succeed in drawing), a valid
12-digit item whose drawing throws gets `generation_failed`, and the
second item of a two-item block carries number 2. -/
theorem barcode_direct_item_contract_witness :
    (processItem (fun _ _ => none) (fun _ _ => BcOutcome.ok)
      { id := 5, subtitle := [], codeType := .barcode, qrErrorCorrection := str "M",
        barcodeFormat := str "EAN13", sizeOverride := str "auto", content := [] }
      0 3 (str "12345678901") = Sum.inr
      { blockId := 5
        lineNumber := 3
        text := str "12345678901"
        errorType := .validationFailed
        message := (validateBarcodeFormat (str "12345678901") (str "EAN13")).error }) ∧
    (processItem (fun _ _ => none) (fun _ _ => BcOutcome.threw (str "boom"))
      { id := 5, subtitle := [], codeType := .barcode, qrErrorCorrection := str "M",
        barcodeFormat := str "EAN13", sizeOverride := str "auto", content := [] }
      0 1 (str "123456789012") = Sum.inr
      { blockId := 5
        lineNumber := 1
        text := str "123456789012"
        errorType := .generationFailed
        message := if str "boom" = [] then bcFailMessage else str "boom" }) ∧
    (∀ ev, (processItems (fun _ _ => some 21) (fun _ _ => BcOutcome.ok)
      { id := 5, subtitle := [], codeType := .qr, qrErrorCorrection := str "M",
        barcodeFormat := str "CODE128", sizeOverride := str "auto", content := [] }
      0 1 [str "x", str "y"]).get? 1 = some ev → eventNumber ev = 1 + 1) :=
  ⟨barcode_direct_item_contract.1 _ _ _ 0 3 _ rfl (by decide),
   barcode_direct_item_contract.2.1 _ _ _ 0 1 _ _ rfl (by decide) rfl,
   fun ev h => barcode_direct_item_contract.2.2.2 _ _ _ 0 _ 1 ev h⟩

/-! ### Worker finalization vs the direct path (C2) -/

/-- Erase the `subtitle` field (the direct path sets it, the worker
finalization does not). -/
def stripSubtitle (c : GenCode) : GenCode := { c with subtitle := none }

theorem finalizeItem_eq (qo : QrOracle) (bo : BcOracle) (b : Block)
    (bi k : Nat) (t : Str) :
    finalizeItem qo bo
      { blockId := b.id, blockIndex := bi, itemIndex := k, text := t,
        codeType := b.codeType, qrErrorCorrection := b.qrErrorCorrection,
        barcodeFormat := b.barcodeFormat, sizeOverride := b.sizeOverride } =
      (match processItem qo bo b bi (k + 1) t with
       | .inl c => some (stripSubtitle c)
       | .inr _ => none) := by
  unfold finalizeItem processItem
  cases b.codeType with
  | qr =>
    cases hq : qrGenerate qo t b.qrErrorCorrection <;> simp [stripSubtitle]
  | barcode =>
    by_cases h1 : (validateBarcodeFormat t b.barcodeFormat).valid = false
    · have hsvg : (bcGenerate bo t b.barcodeFormat).hasSvg = false := by
        unfold bcGenerate
        simp [h1]
      simp [h1, hsvg]
    · by_cases h2 : (bcGenerate bo t b.barcodeFormat).hasSvg <;>
        simp [h1, h2, stripSubtitle]

theorem finalize_block_eq (qo : QrOracle) (bo : BcOracle) (b : Block) (bi : Nat) :
    ∀ (items : List Str) (k : Nat),
      (workerItemsOfBlock b bi k items).filterMap (finalizeItem qo bo) =
        (codesOf (processItems qo bo b bi (k + 1) items)).map stripSubtitle := by
  intro items
  induction items with
  | nil => intro k; rfl
  | cons t ts ih =>
    intro k
    rw [workerItemsOfBlock, List.filterMap_cons, finalizeItem_eq qo bo b bi k t]
    cases hpi : processItem qo bo b bi (k + 1) t with
    | inl c => simp [processItems, hpi, codesOf, ih (k + 1)]
    | inr e => simp [processItems, hpi, codesOf, ih (k + 1)]

theorem finalize_blocks_eq (qo : QrOracle) (bo : BcOracle) (delim : Str) :
    ∀ (blocks : List Block) (bi : Nat),
      (workerExpandAux delim bi blocks).filterMap (finalizeItem qo bo) =
        (codesOf (generateBlocksAux qo bo delim bi blocks)).map stripSubtitle := by
  intro blocks
  induction blocks with
  | nil => intro bi; rfl
  | cons b bs ih =>
    intro bi
    rw [workerExpandAux, generateBlocksAux, List.filterMap_append]
    by_cases hb : jsTrim b.content = []
    · simp only [hb, if_pos rfl]
      simpa [codesOf] using ih (bi + 1)
    · rw [if_neg hb, if_neg hb]
      have h0 := finalize_block_eq qo bo b bi (parseContent b.content delim) 0
      simp only [Nat.zero_add] at h0
      simp [codesOf, List.filterMap_append, h0, ih (bi + 1), List.map_append]

/-- **C2 (amended).** After a delegated run, `finalizeCodesFromWorker`
applied to the worker's flat request list reproduces the direct path's
per-item success/failure classification and ordered codes list *except*
that the finalized codes carry no `subtitle`; and it yields no errors at
all — every per-item failure (validation or drawing) is silently
dropped instead of being recorded in an error set. -/
theorem finalizeCodesFromWorker_vs_direct (qo : QrOracle) (bo : BcOracle)
    (blocks : List Block) (settings : Settings) :
    finalizeCodesFromWorker qo bo (workerExpand blocks settings) =
      (((generateCodesDirect qo bo blocks settings).1).map stripSubtitle,
        ([] : List GenErr)) := by
  unfold finalizeCodesFromWorker workerExpand generateCodesDirect
  exact congrArg (fun l => (l, ([] : List GenErr))) (finalize_blocks_eq qo bo _ blocks 0)

/-- **C2 counterexample.** For a single EAN13 block with the item `"1"`,
the direct path records one `validation_failed` error while the
worker-finalization path produces no errors (and the claim's "same
ordered errors list" fails). -/
def c2CexBlock : Block :=
  { id := 0
    subtitle := []
    codeType := .barcode
    qrErrorCorrection := str "M"
    barcodeFormat := str "EAN13"
    sizeOverride := str "auto"
    content := str "1" }

theorem finalizeCodesFromWorker_counterexample :
    finalizeCodesFromWorker (fun _ _ => none) (fun _ _ => BcOutcome.ok)
        (workerExpand [c2CexBlock] createDefaultSettings) ≠
      generateCodesDirect (fun _ _ => none) (fun _ _ => BcOutcome.ok)
        [c2CexBlock] createDefaultSettings := by
  decide

/-! ### Claim theorems for CSV round-trip, validation rules, splitting -/

/-- **C10.** For every non-empty table whose rows are non-empty, whose
fields contain no carriage return, and whose final row is not a single
empty field, `parseCSV` is a left inverse of `toCSV` — including fields
containing commas, double quotes, or embedded newlines, which `toCSV`
quotes and escapes. -/
theorem parseCSV_toCSV_roundtrip (rows : List (List Str)) (h1 : rows ≠ [])
    (h2 : ∀ r ∈ rows, r ≠ []) (h3 : ∀ r ∈ rows, ∀ f ∈ r, '\r' ∉ f)
    (h4 : rows.getLast? ≠ some [[]]) :
    parseCSV (toCSV rows) = rows := by
  have h := parse_rows rows [] h2 h3 h4
  simpa [parseCSV] using h

/-- Witness for C10 on a table exercising quoting, escaping, embedded
newlines and an empty trailing field. -/
theorem parseCSV_toCSV_roundtrip_witness :
    parseCSV (toCSV [[str "a,b", str "c\"d"], [str "e\nf", []]]) =
      [[str "a,b", str "c\"d"], [str "e\nf", []]] :=
  parseCSV_toCSV_roundtrip [[str "a,b", str "c\"d"], [str "e\nf", []]]
    (by decide) (by decide) (by decide) (by decide)

/-- **C6 counterexample.** At `text = ""` and `format = "ITF"` the claim
fails: the empty string is (vacuously) digit-only and of even length 0,
but the code rejects it — the `^\d+$` numeric check requires at least
one digit. -/
theorem validateBarcodeFormat_ITF_empty_counterexample :
    ¬(((validateBarcodeFormat [] (str "ITF")).valid = true) ↔
      ((∀ c ∈ ([] : Str), c.isDigit) ∧ ([] : Str).length % 2 = 0)) := by
  decide

/-- **C6 (amended).** `validateBarcodeFormat` is a pure function of
`(text, format)` implementing exactly the symbology rules — CODE128:
printable ASCII; EAN13/JAN: digit-only of length 12 or 13; CODE39:
upper-casing lands in `A–Z 0–9 - . space $ / + %`; unknown formats are
always invalid — with ITF accepting exactly the *non-empty* digit-only
strings of even length (the empty string is rejected, which is the one
point where the claim as stated fails). -/
theorem validateBarcodeFormat_rules (t : Str) :
    ((validateBarcodeFormat t (str "CODE128")).valid = true ↔
      ∀ c ∈ t, 0x20 ≤ c.toNat ∧ c.toNat ≤ 0x7E) ∧
    ((validateBarcodeFormat t (str "EAN13")).valid = true ↔
      ((∀ c ∈ t, c.isDigit) ∧ (t.length = 12 ∨ t.length = 13))) ∧
    ((validateBarcodeFormat t (str "JAN")).valid = true ↔
      ((∀ c ∈ t, c.isDigit) ∧ (t.length = 12 ∨ t.length = 13))) ∧
    ((validateBarcodeFormat t (str "CODE39")).valid = true ↔
      ∀ c ∈ jsToUpperCase t, isCode39Char c = true) ∧
    ((validateBarcodeFormat t (str "ITF")).valid = true ↔
      (t ≠ [] ∧ (∀ c ∈ t, c.isDigit) ∧ t.length % 2 = 0)) ∧
    (∀ format : Str,
      format ∉ [str "CODE128", str "EAN13", str "JAN", str "CODE39", str "ITF"] →
      (validateBarcodeFormat t format).valid = false) := by
  have hnum_iff : isNumeric t = true ↔ (t ≠ [] ∧ ∀ c ∈ t, c.isDigit) := by
    simp [isNumeric, List.all_eq_true]
  have hEJ : ∀ f : Str, f ≠ str "CODE128" → (f = str "EAN13" ∨ f = str "JAN") →
      ((validateBarcodeFormat t f).valid = true ↔
        ((∀ c ∈ t, c.isDigit) ∧ (t.length = 12 ∨ t.length = 13))) := by
    intro f hne hf
    unfold validateBarcodeFormat
    rw [if_neg hne, if_pos hf]
    by_cases hnum : isNumeric t = true
    · obtain ⟨hne2, hd⟩ := hnum_iff.1 hnum
      rw [if_neg (by simp [hnum])]
      by_cases hlen : t.length ≠ 12 ∧ t.length ≠ 13
      · rw [if_pos hlen]
        simp only [show (false = true) = False by simp, false_iff]
        rintro ⟨_, h13⟩
        omega
      · rw [if_neg hlen]
        simp only [show (true = true) = True by simp, true_iff]
        exact ⟨hd, by omega⟩
    · rw [if_pos (by simp [hnum])]
      simp only [show (false = true) = False by simp, false_iff]
      rintro ⟨hd, hlen⟩
      refine hnum (hnum_iff.2 ⟨?_, hd⟩)
      intro hnil
      rw [hnil] at hlen
      simp at hlen
  refine ⟨?_, hEJ _ (by decide) (Or.inl rfl), hEJ _ (by decide) (Or.inr rfl), ?_, ?_, ?_⟩
  · unfold validateBarcodeFormat
    rw [if_pos rfl]
    by_cases ha : isAscii t = true
    · rw [if_neg (by simp [ha])]
      simp only [show (true = true) = True by simp, true_iff]
      simpa [isAscii, List.all_eq_true] using ha
    · rw [if_pos (by simp [ha])]
      simp only [show (false = true) = False by simp, false_iff]
      intro hall
      refine ha ?_
      simp only [isAscii, List.all_eq_true]
      intro c hc
      have := hall c hc
      simp [this]
  · unfold validateBarcodeFormat
    rw [if_neg (by decide), if_neg (by decide), if_pos rfl]
    by_cases hc : isCode39Compatible (jsToUpperCase t) = true
    · rw [if_neg (by simp [hc])]
      simp only [show (true = true) = True by simp, true_iff]
      simpa [isCode39Compatible, List.all_eq_true] using hc
    · rw [if_pos (by simp [hc])]
      simp only [show (false = true) = False by simp, false_iff]
      intro hall
      exact hc (by simpa [isCode39Compatible, List.all_eq_true] using hall)
  · unfold validateBarcodeFormat
    rw [if_neg (by decide), if_neg (by decide), if_neg (by decide), if_pos rfl]
    by_cases hnum : isNumeric t = true
    · obtain ⟨hne2, hd⟩ := hnum_iff.1 hnum
      rw [if_neg (by simp [hnum])]
      by_cases hlen : t.length % 2 ≠ 0
      · rw [if_pos hlen]
        simp only [show (false = true) = False by simp, false_iff]
        rintro ⟨_, _, h2⟩
        exact hlen h2
      · rw [if_neg hlen]
        simp only [show (true = true) = True by simp, true_iff]
        exact ⟨hne2, hd, by omega⟩
    · rw [if_pos (by simp [hnum])]
      simp only [show (false = true) = False by simp, false_iff]
      rintro ⟨hne2, hd, _⟩
      exact hnum (hnum_iff.2 ⟨hne2, hd⟩)
  · intro format hmem
    simp only [List.mem_cons, List.mem_singleton, not_or] at hmem
    obtain ⟨n1, n2, n3, n4, n5⟩ := hmem
    unfold validateBarcodeFormat
    rw [if_neg n1, if_neg (by simp [n2, n3]), if_neg n4, if_neg n5.1]

/-- Witness for C6: an unknown format is rejected, and the ITF rule
evaluates as stated on a concrete even digit string. -/
theorem validateBarcodeFormat_rules_witness :
    (validateBarcodeFormat (str "12") (str "XYZ")).valid = false ∧
    ((validateBarcodeFormat (str "1234") (str "ITF")).valid = true ↔
      (str "1234" ≠ [] ∧ (∀ c ∈ str "1234", c.isDigit) ∧
        (str "1234").length % 2 = 0)) :=
  ⟨(validateBarcodeFormat_rules (str "12")).2.2.2.2.2 (str "XYZ") (by decide),
   (validateBarcodeFormat_rules (str "1234")).2.2.2.2.1⟩

/-- **C7.** Delimiter resolution (`newline → "\n"`, `comma → ","`,
`semicolon → ";"`, `tab → "\t"`, `custom →` the configured string, or
`"\n"` when empty), and splitting: the content is split on the literal
delimiter, each piece trimmed, empty pieces dropped, relative order of
the survivors preserved (the result is a sublist of the trimmed
pieces); in particular the result never contains an empty string. -/
theorem parseContent_contract :
    (∀ cd : Str, getDelimiter .newline cd = ['\n'] ∧ getDelimiter .comma cd = [','] ∧
      getDelimiter .semicolon cd = [';'] ∧ getDelimiter .tab cd = ['\t']) ∧
    getDelimiter .custom [] = ['\n'] ∧
    (∀ cd : Str, cd ≠ [] → getDelimiter .custom cd = cd) ∧
    (∀ content d : Str,
      parseContent content d =
        ((jsSplit d content).map jsTrim).filter (fun item => item ≠ []) ∧
      (∀ x ∈ parseContent content d, x ≠ []) ∧
      List.Sublist (parseContent content d) ((jsSplit d content).map jsTrim)) := by
  refine ⟨fun cd => ⟨rfl, rfl, rfl, rfl⟩, rfl, ?_, ?_⟩
  · intro cd hcd
    simp [getDelimiter, hcd]
  · intro content d
    refine ⟨rfl, ?_, List.filter_sublist _⟩
    intro x hx
    have := List.of_mem_filter hx
    simpa using this

/-- Witness for C7: a non-empty custom delimiter resolves to itself, and
a concrete comma-split drops the empty piece, trims, and keeps order. -/
theorem parseContent_contract_witness :
    getDelimiter .custom (str ";;") = str ";;" ∧
    (∀ x ∈ parseContent (str " A ,,B ") [','], x ≠ []) ∧
    parseContent (str " A ,,B ") [','] = [str "A", str "B"] :=
  ⟨parseContent_contract.2.2.1 (str ";;") (by decide),
   (parseContent_contract.2.2.2 (str " A ,,B ") [',']).2.1,
   by decide⟩

/-! ### Columnar CSV export / import (`app_v2.js` `exportData` /
`importData`) -/

/-- The line split of `exportData` (`content.split(/\r?\n/)`): cut at
`\r\n` or `\n`; a lone `\r` stays inside its line. -/
def splitLinesAux : List Char → Str → List Str
  | [], cur => [cur]
  | c :: cs, cur =>
    if c = '\r' then
      match cs, cur with
      | '\n' :: rest2, cur => cur :: splitLinesAux rest2 []
      | rest, cur => splitLinesAux rest (cur ++ [c])
    else if c = '\n' then cur :: splitLinesAux cs []
    else splitLinesAux cs (cur ++ [c])

/-- `content.split(/\r?\n/)`. -/
def splitLines (s : Str) : List Str := splitLinesAux s []

/-- Per-block line lists (`blockContents` in `exportData`); a block with
empty content contributes an empty list. -/
def blockContents (blocks : List Block) : List (List Str) :=
  blocks.map (fun b => if b.content = [] then [] else splitLines b.content)

/-- `Math.max(...blockContents.map(l => l.length), 0)`. -/
def maxLines (blocks : List Block) : Nat :=
  ((blockContents blocks).map List.length).foldr max 0

/-- The `i`-th content row: `'Content'` marker only on the first row,
then each block's `i`-th line (or an empty cell). -/
def contentRow (blocks : List Block) (i : Nat) : List Str :=
  (if i = 0 then str "Content" else []) ::
    (blockContents blocks).map (fun lines => lines.getD i [])

/-- The row table `exportData` serializes with `toCSV`: five metadata
rows, then one row per content line. -/
def exportRows (blocks : List Block) : List (List Str) :=
  [str "Subtitle" :: blocks.map (fun b => b.subtitle),
   str "CodeType" :: blocks.map (fun b => codeTypeStr b.codeType),
   str "QRErrorCorrection" :: blocks.map (fun b => b.qrErrorCorrection),
   str "BarcodeFormat" :: blocks.map (fun b => b.barcodeFormat),
   str "SizeOverride" :: blocks.map (fun b => b.sizeOverride)] ++
  (List.range (maxLines blocks)).map (contentRow blocks)

/-- The metadata keys that stop the content scan in `importData`. -/
def knownKeys : List Str :=
  [str "Subtitle", str "CodeType", str "QRErrorCorrection",
   str "BarcodeFormat", str "SizeOverride"]

/-- `csvData.find(row => row[0] === key)` (an empty row has no first
cell). -/
def findRow (csvData : List (List Str)) (key : Str) : Option (List Str) :=
  csvData.find? (fun row => row.head? = some key)

/-- `row[col]`, with `undefined` read as the empty string (both the
`|| ''` and the `=== undefined ? ''` readings in the source). -/
def cellD (row : List Str) (col : Nat) : Str := row.getD col []

/-- `csvData[i][0] && knownKeys.includes(csvData[i][0])`. -/
def isBreakRow (row : List Str) : Bool :=
  match row.head? with
  | some h => h ≠ [] && knownKeys.any (fun k => k = h)
  | none => false

/-- The content scan after the `Content` row: stop at the first later
row that starts with a known key. -/
def readContentTail : List (List Str) → Nat → List Str
  | [], _ => []
  | row :: rest, col =>
    if isBreakRow row then []
    else cellD row col :: readContentTail rest col

/-- The content scan from the `Content` row itself (the first row is
read unconditionally). -/
def readContentCells : List (List Str) → Nat → List Str
  | [], _ => []
  | row :: rest, col => cellD row col :: readContentTail rest col

/-- Pop trailing empty lines (`while (... last === '') pop()`). -/
def dropTrailingEmpties (l : List Str) : List Str :=
  (l.reverse.dropWhile (fun x => x = [])).reverse

/-- `contentLines.join('\n')`. -/
def joinNl : List Str → Str
  | [] => []
  | [x] => x
  | x :: rest => x ++ '\n' :: joinNl rest

/-- `csvData.findIndex(row => row[0] === 'Content')`, with `-1` read as
`none`. -/
def findContentIdx : List (List Str) → Option Nat
  | [] => none
  | r :: rest =>
    if r.head? = some (str "Content") then some 0
    else (findContentIdx rest).map (fun x => x + 1)

/-- One reconstructed block of the columnar import branch (`col` is the
1-based data column; the fresh UUID of `createNewBlock` is modelled by
`id`, which the round-trip claim ignores). -/
def importBlock (csvData : List (List Str)) (col : Nat) (id : Nat) : Block :=
  { id := id
    subtitle :=
      match findRow csvData (str "Subtitle") with
      | some r => cellD r col
      | none => []
    codeType :=
      match findRow csvData (str "CodeType") with
      | some r => if cellD r col = str "barcode" then .barcode else .qr
      | none => .qr
    qrErrorCorrection :=
      match findRow csvData (str "QRErrorCorrection") with
      | some r => if cellD r col = [] then str "M" else cellD r col
      | none => str "M"
    barcodeFormat :=
      match findRow csvData (str "BarcodeFormat") with
      | some r => if cellD r col = [] then str "CODE128" else cellD r col
      | none => str "CODE128"
    sizeOverride :=
      match findRow csvData (str "SizeOverride") with
      | some r => if cellD r col = [] then str "auto" else cellD r col
      | none => str "auto"
    content :=
      match findContentIdx csvData with
      | some idx => joinNl (dropTrailingEmpties (readContentCells (csvData.drop idx) col))
      | none => [] }

/-- The columnar (new-format) branch of `importData`: one block per data
column; fails when no data column exists. -/
def importColumnar (csvData : List (List Str)) : Option (List Block) :=
  if (csvData.headD []).length - 1 < 1 then none
  else some ((List.range ((csvData.headD []).length - 1)).map
    (fun k => importBlock csvData (k + 1) k))

/-- Format detection of `importData` on parsed CSV data, and the
columnar branch.  The legacy row-oriented branch is outside the scope of
the round-trip claim and is mapped to `none`. -/
def importDataCSV (csvData : List (List Str)) : Option (List Block) :=
  if csvData = [] then none
  else
    if (csvData.headD []).any (fun x => x = str "CodeType") &&
       (csvData.headD []).any (fun x => x = str "Content") then none
    else if csvData.any (fun row => row.head? = some (str "CodeType")) then
      importColumnar csvData
    else none

/-- The six fields the round-trip claim compares (ids are ignored). -/
def keyFields (b : Block) : Str × CodeType × Str × Str × Str × Str :=
  (b.subtitle, b.codeType, b.qrErrorCorrection, b.barcodeFormat,
   b.sizeOverride, b.content)

/-! ### Lemmas for the export/import round-trip -/

theorem splitLinesAux_ne_nil : ∀ (s : List Char) (cur : Str),
    splitLinesAux s cur ≠ [] := by
  intro s
  induction s with
  | nil => intro cur; simp [splitLinesAux]
  | cons c cs ih =>
    intro cur
    by_cases hr : c = '\r'
    · subst hr
      conv_lhs => rw [splitLinesAux.eq_def]
      dsimp only
      rw [if_pos rfl]
      split
      · simp
      · exact ih _
    · by_cases hn : c = '\n'
      · subst hn
        conv_lhs => rw [splitLinesAux.eq_def]
        simp [hr]
      · conv_lhs => rw [splitLinesAux.eq_def]
        simp only [if_neg hr, if_neg hn]
        exact ih _

theorem splitLinesAux_step_newline (cs : List Char) (cur : Str) :
    splitLinesAux ('\n' :: cs) cur = cur :: splitLinesAux cs [] := by
  conv_lhs => rw [splitLinesAux.eq_def]
  simp

theorem splitLinesAux_step_other (c : Char) (hr : c ≠ '\r') (hn : c ≠ '\n')
    (cs : List Char) (cur : Str) :
    splitLinesAux (c :: cs) cur = splitLinesAux cs (cur ++ [c]) := by
  conv_lhs => rw [splitLinesAux.eq_def]
  simp [hr, hn]

theorem splitLinesAux_no_cr (s : List Char) :
    ∀ (cur : Str), '\r' ∉ s → '\r' ∉ cur →
      ∀ p ∈ splitLinesAux s cur, '\r' ∉ p := by
  induction s with
  | nil =>
    intro cur _ hcur p hp
    simp only [splitLinesAux, List.mem_singleton] at hp
    exact hp ▸ hcur
  | cons c cs ih =>
    intro cur hs hcur p hp
    have hc : c ≠ '\r' := fun h => hs (h ▸ List.mem_cons_self c cs)
    have hcs : '\r' ∉ cs := fun h => hs (List.mem_cons_of_mem c h)
    by_cases hn : c = '\n'
    · subst hn
      rw [splitLinesAux_step_newline] at hp
      rcases List.mem_cons.1 hp with hp | hp
      · exact hp ▸ hcur
      · exact ih [] hcs (by simp) p hp
    · rw [splitLinesAux_step_other c hc hn] at hp
      refine ih (cur ++ [c]) hcs ?_ p hp
      intro hmem
      rcases List.mem_append.1 hmem with h | h
      · exact hcur h
      · simp only [List.mem_singleton] at h
        exact hc h.symm

theorem joinNl_cons (x : Str) (l : List Str) (hl : l ≠ []) :
    joinNl (x :: l) = x ++ '\n' :: joinNl l := by
  cases l with
  | nil => exact absurd rfl hl
  | cons y ys => rfl

theorem joinNl_splitLinesAux (s : List Char) :
    ∀ (cur : Str), '\r' ∉ s → joinNl (splitLinesAux s cur) = cur ++ s := by
  induction s with
  | nil => intro cur _; simp [splitLinesAux, joinNl]
  | cons c cs ih =>
    intro cur hs
    have hc : c ≠ '\r' := fun h => hs (h ▸ List.mem_cons_self c cs)
    have hcs : '\r' ∉ cs := fun h => hs (List.mem_cons_of_mem c h)
    by_cases hn : c = '\n'
    · subst hn
      rw [splitLinesAux_step_newline,
        joinNl_cons cur _ (splitLinesAux_ne_nil cs []), ih [] hcs]
      simp
    · rw [splitLinesAux_step_other c hc hn, ih (cur ++ [c]) hcs]
      simp

/-- `content.split(/\r?\n/).join('\n') = content` for CR-free content. -/
theorem joinNl_splitLines (s : Str) (hs : '\r' ∉ s) :
    joinNl (splitLines s) = s := by
  simpa using joinNl_splitLinesAux s [] hs

theorem range_map_getD (l : List Str) :
    ∀ (m : Nat), l.length ≤ m →
      (List.range m).map (fun i => l.getD i []) =
        l ++ List.replicate (m - l.length) [] := by
  induction l with
  | nil =>
    intro m _
    simp [List.map_const']
  | cons x xs ih =>
    intro m hm
    cases m with
    | zero => simp at hm
    | succ m' =>
      rw [List.range_succ_eq_map, List.map_cons, List.map_map]
      have : ((fun i => (x :: xs).getD i []) ∘ Nat.succ) =
          (fun i => xs.getD i []) := by
        funext i
        simp
      rw [this, ih m' (by simpa using hm)]
      simp

theorem dropWhile_replicate_append (j : Nat) (p : Str → Bool) (hp : p [] = true)
    (ys : List Str) :
    (List.replicate j ([] : Str) ++ ys).dropWhile p = ys.dropWhile p := by
  induction j with
  | zero => simp
  | succ j ih => simpa [List.replicate_succ, List.dropWhile_cons, hp] using ih

theorem dropTrailingEmpties_pad (l : List Str) (j : Nat)
    (hlast : l.getLast? ≠ some []) :
    dropTrailingEmpties (l ++ List.replicate j []) = l := by
  unfold dropTrailingEmpties
  rw [List.reverse_append, List.reverse_replicate,
    dropWhile_replicate_append j _ (by simp)]
  cases hrev : l.reverse with
  | nil =>
    have : l = [] := by simpa using congrArg List.reverse hrev
    simp [this]
  | cons y ys =>
    have hy : l.getLast? = some y := by
      rw [← List.head?_reverse, hrev]
      rfl
    have hyne : y ≠ [] := by
      intro h
      exact hlast (h ▸ hy)
    rw [List.dropWhile_cons_of_neg (by simpa using hyne)]
    have := congrArg List.reverse hrev
    simpa using this.symm

theorem le_foldr_max (l : List Nat) : ∀ x ∈ l, x ≤ l.foldr max 0 := by
  induction l with
  | nil => simp
  | cons a as ih =>
    intro x hx
    rcases List.mem_cons.1 hx with hx | hx
    · subst hx
      exact le_max_of_le_left (le_refl _)
    · exact le_max_of_le_right (ih x hx)

theorem readContentTail_no_break (col : Nat) :
    ∀ rows : List (List Str), (∀ r ∈ rows, isBreakRow r = false) →
      readContentTail rows col = rows.map (fun r => cellD r col) := by
  intro rows
  induction rows with
  | nil => intro _; rfl
  | cons r rest ih =>
    intro h
    rw [readContentTail, if_neg (by simp [h r (by simp)]),
      ih (fun r2 hr2 => h r2 (List.mem_cons_of_mem r hr2))]
    simp

theorem exportRows_row_length (blocks : List Block) :
    ∀ r ∈ exportRows blocks, r.length = blocks.length + 1 := by
  intro r hr
  rcases List.mem_append.1 hr with h | h
  · simp only [List.mem_cons, List.mem_singleton] at h
    rcases h with h | h | h | h | h | h
    all_goals first
      | (subst h; simp)
      | simp at h
  · obtain ⟨i, _, rfl⟩ := List.mem_map.1 h
    simp [contentRow, blockContents]

theorem cellD_cons_map {α : Type} (key : Str) (g : α → Str) (l : List α) (k : Nat)
    (hk : k < l.length) : cellD (key :: l.map g) (k + 1) = g l[k] := by
  have h2 : k < (l.map g).length := by simpa using hk
  have hstep : (key :: l.map g).getD (k + 1) [] = (l.map g).getD k [] := rfl
  rw [cellD, hstep, List.getD_eq_getElem _ _ h2, List.getElem_map]

theorem getD_length_le (l : List Str) (k : Nat) (hk : l.length ≤ k) :
    l.getD k [] = [] := List.getD_eq_default l [] hk

theorem splitLines_length_pos (s : Str) : 0 < (splitLines s).length := by
  cases h : splitLines s with
  | nil => exact absurd h (splitLinesAux_ne_nil s [])
  | cons x xs => simp

theorem blockContents_getElem (blocks : List Block) (k : Nat)
    (hk : k < blocks.length) (hk2 : k < (blockContents blocks).length) :
    (blockContents blocks)[k] =
      (if blocks[k].content = [] then [] else splitLines blocks[k].content) := by
  simp [blockContents]

theorem lines_le_maxLines (blocks : List Block) (k : Nat) (hk : k < blocks.length) :
    (if blocks[k].content = [] then [] else splitLines blocks[k].content).length ≤
      maxLines blocks := by
  refine le_foldr_max _ _ ?_
  have hk2 : k < (blockContents blocks).length := by simpa [blockContents] using hk
  have hmem : (blockContents blocks)[k] ∈ blockContents blocks := List.getElem_mem hk2
  rw [blockContents_getElem blocks k hk hk2] at hmem
  exact List.mem_map.2 ⟨_, hmem, rfl⟩

theorem maxLines_pos (blocks : List Block) (hne : blocks ≠ [])
    (hc : ∀ b ∈ blocks, b.content ≠ []) : 1 ≤ maxLines blocks := by
  obtain ⟨b, bs, rfl⟩ : ∃ b bs, blocks = b :: bs := by
    cases blocks with
    | nil => exact absurd rfl hne
    | cons b bs => exact ⟨b, bs, rfl⟩
  have h0 : (0 : Nat) < (b :: bs).length := by simp
  have := lines_le_maxLines (b :: bs) 0 h0
  rw [if_neg (by simpa using hc b (by simp))] at this
  calc 1 ≤ (splitLines (b :: bs)[0].content).length := by
        simpa using splitLines_length_pos (b :: bs)[0].content
    _ ≤ maxLines (b :: bs) := by simpa using this

theorem find?_head_neq (key a : Str) (tail : List Str) (rest : List (List Str))
    (h : a ≠ key) :
    List.find? (fun row => row.head? = some key) ((a :: tail) :: rest) =
      List.find? (fun row => row.head? = some key) rest := by
  refine List.find?_cons_of_neg _ ?_
  simp [h]

theorem find?_head_eq (key : Str) (tail : List Str) (rest : List (List Str)) :
    List.find? (fun row => row.head? = some key) ((key :: tail) :: rest) =
      some (key :: tail) := by
  refine List.find?_cons_of_pos _ ?_
  simp

theorem findContentIdx_cons_neq (a : Str) (tail : List Str) (rest : List (List Str))
    (h : a ≠ str "Content") :
    findContentIdx ((a :: tail) :: rest) =
      (findContentIdx rest).map (fun x => x + 1) := by
  rw [findContentIdx, if_neg (by simp [h])]

theorem content_cells_eq (blocks : List Block) (k : Nat) (hk : k < blocks.length)
    (hc : ∀ b ∈ blocks, b.content ≠ []) :
    readContentCells ((List.range (maxLines blocks)).map (contentRow blocks)) (k + 1) =
      (List.range (maxLines blocks)).map
        (fun i => (splitLines blocks[k].content).getD i []) := by
  have hcr : ∀ i : Nat, cellD (contentRow blocks i) (k + 1) =
      (splitLines blocks[k].content).getD i [] := by
    intro i
    have hkb : k < (blockContents blocks).length := by simpa [blockContents] using hk
    rw [contentRow, cellD_cons_map _ (fun lines => lines.getD i []) _ k hkb]
    rw [blockContents_getElem blocks k hk hkb,
      if_neg (hc blocks[k] (List.getElem_mem hk))]
  obtain ⟨m, hm⟩ : ∃ m, maxLines blocks = m + 1 := by
    have := maxLines_pos blocks (by rintro rfl; simp at hk) hc
    exact ⟨maxLines blocks - 1, by omega⟩
  rw [hm, List.range_succ_eq_map, List.map_cons, List.map_cons, readContentCells,
    List.map_map, readContentTail_no_break _ _ ?hbr]
  case hbr =>
    intro r hr
    obtain ⟨j, _, rfl⟩ := List.mem_map.1 hr
    simp [isBreakRow, contentRow]
  rw [List.map_map, List.map_map]
  refine congrArg₂ List.cons (hcr 0) ?_
  refine List.map_congr_left ?_
  intro j _
  simp only [Function.comp_apply, Nat.succ_eq_add_one]
  exact hcr (j + 1)

/-- **C4 (amended).** Exporting the columnar CSV and importing it back
reconstructs every block's subtitle, codeType, qrErrorCorrection,
barcodeFormat, sizeOverride and content (ids are ignored), for every
non-empty block list whose contents are non-empty, carriage-return-free
and do not end in an empty line, whose subtitles are carriage-return
free and not the literal string `CodeType`, and whose three metadata
string fields are non-empty and carriage-return free.  The extra
hypotheses are forced: a content with a trailing newline loses it (see
the counterexample), a carriage return breaks the CSV row structure, an
empty metadata cell is re-defaulted, and a subtitle `CodeType` (with a
`Content` cell) mis-detects the legacy row format. -/
theorem export_import_roundtrip (blocks : List Block)
    (hne : blocks ≠ [])
    (hcontent : ∀ b ∈ blocks, b.content ≠ [] ∧ '\r' ∉ b.content ∧
      (splitLines b.content).getLast? ≠ some [])
    (hsub : ∀ b ∈ blocks, '\r' ∉ b.subtitle ∧ b.subtitle ≠ str "CodeType")
    (hmeta : ∀ b ∈ blocks, (b.qrErrorCorrection ≠ [] ∧ '\r' ∉ b.qrErrorCorrection) ∧
      (b.barcodeFormat ≠ [] ∧ '\r' ∉ b.barcodeFormat) ∧
      (b.sizeOverride ≠ [] ∧ '\r' ∉ b.sizeOverride)) :
    (importDataCSV (parseCSV (toCSV (exportRows blocks)))).map (List.map keyFields) =
      some (blocks.map keyFields) := by
  have hshape : exportRows blocks =
      (str "Subtitle" :: blocks.map (fun b => b.subtitle)) ::
      (str "CodeType" :: blocks.map (fun b => codeTypeStr b.codeType)) ::
      (str "QRErrorCorrection" :: blocks.map (fun b => b.qrErrorCorrection)) ::
      (str "BarcodeFormat" :: blocks.map (fun b => b.barcodeFormat)) ::
      (str "SizeOverride" :: blocks.map (fun b => b.sizeOverride)) ::
      (List.range (maxLines blocks)).map (contentRow blocks) := rfl
  have hA : ∀ r ∈ exportRows blocks, r ≠ [] := by
    intro r hr hnil
    have hlen := exportRows_row_length blocks r hr
    rw [hnil] at hlen
    simp at hlen
  have hBrows : ∀ r ∈ exportRows blocks, ∀ f ∈ r, '\r' ∉ f := by
    intro r hr
    rcases List.mem_append.1 hr with h | h
    · simp only [List.mem_cons, List.mem_singleton] at h
      rcases h with h | h | h | h | h | h
      · subst h
        intro f hf
        rcases List.mem_cons.1 hf with hf | hf
        · subst hf; decide
        · obtain ⟨b, hb, rfl⟩ := List.mem_map.1 hf
          exact (hsub b hb).1
      · subst h
        intro f hf
        rcases List.mem_cons.1 hf with hf | hf
        · subst hf; decide
        · obtain ⟨b, _, rfl⟩ := List.mem_map.1 hf
          cases b.codeType <;> decide
      · subst h
        intro f hf
        rcases List.mem_cons.1 hf with hf | hf
        · subst hf; decide
        · obtain ⟨b, hb, rfl⟩ := List.mem_map.1 hf
          exact (hmeta b hb).1.2
      · subst h
        intro f hf
        rcases List.mem_cons.1 hf with hf | hf
        · subst hf; decide
        · obtain ⟨b, hb, rfl⟩ := List.mem_map.1 hf
          exact (hmeta b hb).2.1.2
      · subst h
        intro f hf
        rcases List.mem_cons.1 hf with hf | hf
        · subst hf; decide
        · obtain ⟨b, hb, rfl⟩ := List.mem_map.1 hf
          exact (hmeta b hb).2.2.2
      · cases h
    · obtain ⟨i, _, rfl⟩ := List.mem_map.1 h
      intro f hf
      rcases List.mem_cons.1 hf with hf | hf
      · subst hf
        by_cases hi : i = 0 <;> simp [contentRow, hi] <;> decide
      · obtain ⟨lines, hlines, rfl⟩ := List.mem_map.1 hf
        obtain ⟨b, hb, rfl⟩ := List.mem_map.1 hlines
        by_cases hcn : b.content = []
        · simp [hcn]
        · rw [if_neg hcn]
          by_cases hlt : i < (splitLines b.content).length
          · rw [List.getD_eq_getElem _ _ hlt]
            exact splitLinesAux_no_cr b.content [] (hcontent b hb).2.1 (by simp) _
              (List.getElem_mem hlt)
          · rw [getD_length_le _ _ (by omega)]
            simp
  have hC : (exportRows blocks).getLast? ≠ some [[]] := by
    intro h
    have hmem := List.mem_of_mem_getLast? h
    have hl1 := exportRows_row_length blocks [[]] hmem
    simp at hl1
    exact hne hl1
  have hcsv : parseCSV (toCSV (exportRows blocks)) = exportRows blocks := by
    simpa [parseCSV] using parse_rows (exportRows blocks) [] hA hBrows hC
  rw [hcsv]
  have hne0 : exportRows blocks ≠ [] := by
    rw [hshape]
    simp
  have hhead : (exportRows blocks).headD [] =
      str "Subtitle" :: blocks.map (fun b => b.subtitle) := rfl
  have hno : ((exportRows blocks).headD []).any (fun x => x = str "CodeType") = false := by
    rw [hhead]
    rw [List.any_eq_false]
    intro x hx
    rcases List.mem_cons.1 hx with hx | hx
    · subst hx; decide
    · obtain ⟨b, hb, rfl⟩ := List.mem_map.1 hx
      simpa using (hsub b hb).2
  have hyes : (exportRows blocks).any
      (fun row => row.head? = some (str "CodeType")) = true := by
    rw [List.any_eq_true]
    refine ⟨str "CodeType" :: blocks.map (fun b => codeTypeStr b.codeType), ?_, by simp⟩
    rw [hshape]
    simp
  have hcond : (((exportRows blocks).headD []).any (fun x => x = str "CodeType") &&
      ((exportRows blocks).headD []).any (fun x => x = str "Content")) = false := by
    rw [hno, Bool.false_and]
  rw [importDataCSV, if_neg hne0,
    if_neg (by rw [hcond]; exact Bool.false_ne_true), if_pos hyes]
  have hn : 0 < blocks.length := List.length_pos.2 hne
  have hhl : ((exportRows blocks).headD []).length - 1 = blocks.length := by
    rw [hhead]
    simp
  rw [importColumnar, hhl, if_neg (by omega)]
  rw [Option.map_some', Option.some_inj, List.map_map]
  refine List.ext_getElem (by simp) ?_
  intro k hk1 hk2
  have hk : k < blocks.length := by simpa using hk2
  simp only [List.getElem_map, List.getElem_range]
  show keyFields (importBlock (exportRows blocks) (k + 1) k) = keyFields blocks[k]
  have hb : blocks[k] ∈ blocks := List.getElem_mem hk
  have hfSub : findRow (exportRows blocks) (str "Subtitle") =
      some (str "Subtitle" :: blocks.map (fun b => b.subtitle)) := by
    rw [findRow, hshape, find?_head_eq]
  have hfCT : findRow (exportRows blocks) (str "CodeType") =
      some (str "CodeType" :: blocks.map (fun b => codeTypeStr b.codeType)) := by
    rw [findRow, hshape, find?_head_neq _ _ _ _ (by decide), find?_head_eq]
  have hfQR : findRow (exportRows blocks) (str "QRErrorCorrection") =
      some (str "QRErrorCorrection" :: blocks.map (fun b => b.qrErrorCorrection)) := by
    rw [findRow, hshape, find?_head_neq _ _ _ _ (by decide),
      find?_head_neq _ _ _ _ (by decide), find?_head_eq]
  have hfBF : findRow (exportRows blocks) (str "BarcodeFormat") =
      some (str "BarcodeFormat" :: blocks.map (fun b => b.barcodeFormat)) := by
    rw [findRow, hshape, find?_head_neq _ _ _ _ (by decide),
      find?_head_neq _ _ _ _ (by decide), find?_head_neq _ _ _ _ (by decide),
      find?_head_eq]
  have hfSO : findRow (exportRows blocks) (str "SizeOverride") =
      some (str "SizeOverride" :: blocks.map (fun b => b.sizeOverride)) := by
    rw [findRow, hshape, find?_head_neq _ _ _ _ (by decide),
      find?_head_neq _ _ _ _ (by decide), find?_head_neq _ _ _ _ (by decide),
      find?_head_neq _ _ _ _ (by decide), find?_head_eq]
  have hcontentk := hcontent blocks[k] hb
  have hfIdx : findContentIdx (exportRows blocks) = some 5 := by
    obtain ⟨m, hm⟩ : ∃ m, maxLines blocks = m + 1 := by
      have := maxLines_pos blocks hne (fun b hb2 => (hcontent b hb2).1)
      exact ⟨maxLines blocks - 1, by omega⟩
    rw [hshape, findContentIdx_cons_neq _ _ _ (by decide),
      findContentIdx_cons_neq _ _ _ (by decide),
      findContentIdx_cons_neq _ _ _ (by decide),
      findContentIdx_cons_neq _ _ _ (by decide),
      findContentIdx_cons_neq _ _ _ (by decide), hm,
      List.range_succ_eq_map, List.map_cons, findContentIdx,
      if_pos (show (contentRow blocks 0).head? = some (str "Content") by
        simp [contentRow])]
    rfl
  have hdrop : (exportRows blocks).drop 5 =
      (List.range (maxLines blocks)).map (contentRow blocks) := rfl
  have hcells := content_cells_eq blocks k hk (fun b hb2 => (hcontent b hb2).1)
  have hlen2 : (splitLines blocks[k].content).length ≤ maxLines blocks := by
    have := lines_le_maxLines blocks k hk
    rwa [if_neg hcontentk.1] at this
  have hcellSub := cellD_cons_map (str "Subtitle") (fun b => b.subtitle) blocks k hk
  have hcellCT := cellD_cons_map (str "CodeType")
    (fun b => codeTypeStr b.codeType) blocks k hk
  have hcellQR := cellD_cons_map (str "QRErrorCorrection")
    (fun b => b.qrErrorCorrection) blocks k hk
  have hcellBF := cellD_cons_map (str "BarcodeFormat")
    (fun b => b.barcodeFormat) blocks k hk
  have hcellSO := cellD_cons_map (str "SizeOverride")
    (fun b => b.sizeOverride) blocks k hk
  have hmetak := hmeta blocks[k] hb
  simp only [keyFields, importBlock]
  rw [hfSub, hfCT, hfQR, hfBF, hfSO, hfIdx]
  dsimp only
  rw [hcellSub, hcellCT, hcellQR, hcellBF, hcellSO]
  rw [if_neg hmetak.1.1, if_neg hmetak.2.1.1, if_neg hmetak.2.2.1]
  rw [hdrop, hcells, range_map_getD _ _ hlen2,
    dropTrailingEmpties_pad _ _ hcontentk.2.2,
    joinNl_splitLines _ hcontentk.2.1]
  have hct : (if codeTypeStr blocks[k].codeType = str "barcode" then CodeType.barcode
      else CodeType.qr) = blocks[k].codeType := by
    cases hcase : blocks[k].codeType <;> simp [codeTypeStr] <;> decide
  rw [hct]

/-- A concrete block exercising quoting (comma in the subtitle) and an
interior empty content line. -/
def c4WitnessBlock : Block :=
  { id := 3
    subtitle := str "hello, world"
    codeType := .barcode
    qrErrorCorrection := str "Q"
    barcodeFormat := str "EAN13"
    sizeOverride := str "large"
    content := str "123\n\n456" }

/-- Witness for C4 (amended) at a concrete block. -/
theorem export_import_roundtrip_witness :
    (importDataCSV (parseCSV (toCSV (exportRows [c4WitnessBlock])))).map
        (List.map keyFields) = some ([c4WitnessBlock].map keyFields) :=
  export_import_roundtrip [c4WitnessBlock] (by decide) (by decide) (by decide)
    (by decide)

/-- The counterexample block: non-empty content ending in a newline. -/
def c4CexBlock : Block :=
  { id := 3
    subtitle := []
    codeType := .qr
    qrErrorCorrection := str "M"
    barcodeFormat := str "CODE128"
    sizeOverride := str "auto"
    content := str "a\n" }

/-- **C4 counterexample.** A block whose non-empty content ends in a
newline does not round-trip: the import pops the trailing empty line and
reconstructs content `"a"` instead of `"a\n"`. -/
theorem export_import_counterexample :
    c4CexBlock.content ≠ [] ∧
    (importDataCSV (parseCSV (toCSV (exportRows [c4CexBlock])))).map
      (List.map (fun b => b.content)) = some [str "a"] ∧
    str "a" ≠ c4CexBlock.content := by decide

end QRM
